import Mathlib

/-!
# Monte Carlo pricing of a European call (src/main.cpp)

A shallow embedding of `src/main.cpp` and the properties of its estimation engine.

Modelling conventions.

* A C++ `double` that is known to be finite is a value of an ordered field `α`
  (`ℚ` for evaluation, `ℝ` for the statements that involve `exp` and `sqrt`).
  Arithmetic is exact: rounding is not modelled.
* A `double` that may be an infinity or a not-a-number is a `Dbl α`.
* The library functions `exp` and `sqrt` are arguments of the definitions that call
  them; the theorems instantiate them with `Real.exp` and `Real.sqrt`.
* The global random engine is state that is passed explicitly (`RandomEngine`).
-/

namespace BMA

/-! ## Doubles that may be non-finite -/

/-- A double whose value may fail to be a finite number: `fin x` is the finite value `x`,
`nonfinite` stands for an infinity or a not-a-number. Every operation below yields
`nonfinite` as soon as an operand is `nonfinite`; in the simulation runs of
`src/main.cpp` no divisor is ever an infinity (the divisors are the integers `k` and
`replicate_count` and a square root), so this is how the non-finite values of a run
propagate. The operations of this namespace are exact on finite values; the rounded ones
are those of `FloatEnv` below. -/
inductive Dbl (α : Type) where
  | fin : α → Dbl α
  | nonfinite : Dbl α
  deriving DecidableEq, Repr

namespace Dbl

variable {α : Type} [LinearOrderedField α]

/-- Sum of two doubles. -/
def add : Dbl α → Dbl α → Dbl α
  | fin a, fin b => fin (a + b)
  | _, _ => nonfinite

/-- Difference of two doubles. -/
def sub : Dbl α → Dbl α → Dbl α
  | fin a, fin b => fin (a - b)
  | _, _ => nonfinite

/-- Product of two doubles. -/
def mul : Dbl α → Dbl α → Dbl α
  | fin a, fin b => fin (a * b)
  | _, _ => nonfinite

/-- Quotient of two doubles: a zero divisor gives an infinity or a not-a-number. -/
def div : Dbl α → Dbl α → Dbl α
  | fin a, fin b => if b = 0 then nonfinite else fin (a / b)
  | _, _ => nonfinite

/-- The C library `sqrt`: a negative argument gives a not-a-number; on the other finite
arguments it is the function `sqrt` passed in. -/
def sqrt (sqrt : α → α) : Dbl α → Dbl α
  | fin a => if a < 0 then nonfinite else fin (sqrt a)
  | nonfinite => nonfinite

instance : Add (Dbl α) := ⟨add⟩
instance : Sub (Dbl α) := ⟨sub⟩
instance : Mul (Dbl α) := ⟨mul⟩
instance : Div (Dbl α) := ⟨div⟩
instance : One (Dbl α) := ⟨fin 1⟩

end Dbl

/-! ## Doubles with the special values of IEEE 754 -/

/-- A double with the special values of IEEE 754: `fin x` is the finite value `x`, where
`fin 0` is the positive zero; `negZero` is the negative zero; `posInf` and `negInf` are
the infinities and `nan` is a not-a-number. The operations below are exact on finite
values (no rounding, overflow or underflow) and follow IEEE 754 and Annex F of the C
standard on the special values and on the sign of a zero. -/
inductive XDbl (α : Type) where
  | fin : α → XDbl α
  | negZero : XDbl α
  | posInf : XDbl α
  | negInf : XDbl α
  | nan : XDbl α
  deriving DecidableEq, Repr

namespace XDbl

variable {α : Type} [LinearOrderedField α]

/-- Whether the double is a not-a-number. -/
def isNaN : XDbl α → Bool
  | nan => true
  | _ => false

/-- Whether the double is an infinity. -/
def isInf : XDbl α → Bool
  | posInf => true
  | negInf => true
  | _ => false

/-- Whether the double is a zero, of either sign. -/
def isZero : XDbl α → Bool
  | fin a => decide (a = 0)
  | negZero => true
  | _ => false

/-- The sign bit of a double that is not a not-a-number. -/
def signBit : XDbl α → Bool
  | fin a => decide (a < 0)
  | negZero => true
  | negInf => true
  | _ => false

/-- The value of a finite double. -/
def value : XDbl α → α
  | fin a => a
  | _ => 0

/-- The zero with the given sign bit. -/
def zero (negative : Bool) : XDbl α :=
  if negative then negZero else fin 0

/-- The infinity with the given sign bit. -/
def inf (negative : Bool) : XDbl α :=
  if negative then negInf else posInf

/-- Unary minus: the sign bit is flipped. -/
def neg : XDbl α → XDbl α
  | fin a => if a = 0 then negZero else fin (-a)
  | negZero => fin 0
  | posInf => negInf
  | negInf => posInf
  | nan => nan

/-- Sum: infinities of opposite sign give a not-a-number; a sum that is zero is the
positive zero unless both operands are negative zeros. -/
def add : XDbl α → XDbl α → XDbl α
  | nan, _ => nan
  | _, nan => nan
  | posInf, negInf => nan
  | negInf, posInf => nan
  | posInf, _ => posInf
  | _, posInf => posInf
  | negInf, _ => negInf
  | _, negInf => negInf
  | negZero, negZero => negZero
  | negZero, fin b => fin b
  | fin a, negZero => fin a
  | fin a, fin b => fin (a + b)

/-- Difference: `x - y` is `x + (-y)`. -/
def sub (x y : XDbl α) : XDbl α :=
  add x (neg y)

/-- Product: an infinity times a zero is a not-a-number; otherwise the sign bit of the
result is the exclusive or of the sign bits. -/
def mul (x y : XDbl α) : XDbl α :=
  if x.isNaN || y.isNaN then nan
  else if (x.isInf && y.isZero) || (x.isZero && y.isInf) then nan
  else if x.isInf || y.isInf then inf (xor x.signBit y.signBit)
  else if x.isZero || y.isZero then zero (xor x.signBit y.signBit)
  else fin (x.value * y.value)

/-- Quotient: an infinity by an infinity and a zero by a zero are not-a-numbers; a
non-zero number by a zero is an infinity; otherwise the sign bit of the result is the
exclusive or of the sign bits. -/
def div (x y : XDbl α) : XDbl α :=
  if x.isNaN || y.isNaN then nan
  else if (x.isInf && y.isInf) || (x.isZero && y.isZero) then nan
  else if x.isInf || y.isZero then inf (xor x.signBit y.signBit)
  else if y.isInf || x.isZero then zero (xor x.signBit y.signBit)
  else fin (x.value / y.value)

instance : Neg (XDbl α) := ⟨neg⟩
instance : Add (XDbl α) := ⟨add⟩
instance : Sub (XDbl α) := ⟨sub⟩
instance : Mul (XDbl α) := ⟨mul⟩
instance : Div (XDbl α) := ⟨div⟩

/-- The C library `sqrt`: a negative argument gives a not-a-number, a zero or the
positive infinity is returned unchanged; on the positive finite arguments it is the
function `sqrt` passed in. -/
def sqrt (sqrt : α → α) : XDbl α → XDbl α
  | fin a => if a < 0 then nan else fin (sqrt a)
  | negZero => negZero
  | posInf => posInf
  | negInf => nan
  | nan => nan

/-- The C library `log`: a zero gives the negative infinity, a negative argument a
not-a-number; on the positive finite arguments it is the function `log` passed in. -/
def log (log : α → α) : XDbl α → XDbl α
  | fin a => if a = 0 then negInf else if a < 0 then nan else fin (log a)
  | negZero => negInf
  | posInf => posInf
  | negInf => nan
  | nan => nan

/-- The C library `exp`: `exp(-inf)` is `0` and `exp(+inf)` is `+inf`; on the finite
arguments it is the function `exp` passed in. -/
def exp (exp : α → α) : XDbl α → XDbl α
  | fin a => fin (exp a)
  | negZero => fin (exp 0)
  | posInf => posInf
  | negInf => fin 0
  | nan => nan

/-- The C library `erfc`: `erfc(+inf)` is `0` and `erfc(-inf)` is `2`; on the finite
arguments it is the function `erfc` passed in. -/
def erfc (erfc : α → α) : XDbl α → XDbl α
  | fin a => fin (erfc a)
  | negZero => fin (erfc 0)
  | posInf => fin 0
  | negInf => fin 2
  | nan => nan

/-- The C library `pow( x, 2 )`: the square, `+0` for a zero and `+inf` for an
infinity. -/
def pow_2 : XDbl α → XDbl α
  | fin a => fin (a ^ 2)
  | negZero => fin 0
  | posInf => posInf
  | negInf => posInf
  | nan => nan

end XDbl

/-! ## Constants (src/main.cpp, lines 9-22) -/

section Constants

variable (α : Type) [LinearOrderedField α]

/-- `STARTING_PRICE`, line 9. -/
def STARTING_PRICE : α := 1868.99
/-- `STRIKE_PRICE`, line 10. -/
def STRIKE_PRICE : α := 1870.0
/-- `VOLATILITY`, line 11. -/
def VOLATILITY : α := 0.2979
/-- `RISK_FREE_RATE`, line 12. -/
def RISK_FREE_RATE : α := 0.003866
/-- `EXPECTED_DIVIDEND_YIELD`, line 13. -/
def EXPECTED_DIVIDEND_YIELD : α := 0.0232
/-- `TIME_TO_MATURITY`, line 14. -/
def TIME_TO_MATURITY : α := 1.0 / 52.0

end Constants

/-- `NUMBER_OF_DIRECT_SIMULATION_RUNS`, line 16. -/
def NUMBER_OF_DIRECT_SIMULATION_RUNS : Nat := 6
/-- `BASE_NUMBER_OF_REPLICATES_PER_DIRECT_SIMULATION`, line 17. -/
def BASE_NUMBER_OF_REPLICATES_PER_DIRECT_SIMULATION : Nat := 1000
/-- `NUMBER_OF_ANTITHETIC_SIMULATION_RUNS`, line 19. -/
def NUMBER_OF_ANTITHETIC_SIMULATION_RUNS : Nat := 5
/-- `BASE_NUMBER_OF_REPLICATES_PER_ANTITHETIC_SIMULATION`, line 20. -/
def BASE_NUMBER_OF_REPLICATES_PER_ANTITHETIC_SIMULATION : Nat := 4000
/-- `REPLICATE_MULTIPLIER_PER_SIMULATION_RUN`, line 22. -/
def REPLICATE_MULTIPLIER_PER_SIMULATION_RUN : Nat := 10

/-- Largest value of the C++ type `int` (32 bits). -/
def INT_MAX : Int := 2147483647
/-- Smallest value of the C++ type `int` (32 bits). -/
def INT_MIN : Int := -2147483648

/-! ## Random source (lines 30-38) -/

/-- The state of `random_engine` together with `distribution`: the stream of
standard-normal draws it will produce and the number of draws taken so far. -/
structure RandomEngine (α : Type) where
  draws : Nat → α
  position : Nat

section Model

variable {α : Type} [LinearOrderedField α]

/-- `generate_next_random_number`, lines 36-38: the next draw, and the engine advanced by
one draw. -/
def generate_next_random_number (g : RandomEngine α) : α × RandomEngine α :=
  (g.draws g.position, { g with position := g.position + 1 })

/-! ## Terminal price model (lines 87-111) -/

/-- `bma_deterministic_part`, lines 87-89. -/
def bma_deterministic_part (exp : α → α) : α :=
  STARTING_PRICE α * exp
    ((RISK_FREE_RATE α - EXPECTED_DIVIDEND_YIELD α - 0.5 * VOLATILITY α * VOLATILITY α)
      * TIME_TO_MATURITY α)

/-- `bma_stocastic_part_coefficient`, line 91. -/
def bma_stocastic_part_coefficient (sqrt : α → α) : α :=
  VOLATILITY α * sqrt (TIME_TO_MATURITY α)

/-- `simulate_new_bma_price_direct`, lines 93-98. -/
def simulate_new_bma_price_direct (exp sqrt : α → α) (g : RandomEngine α) :
    α × RandomEngine α :=
  let (z, g1) := generate_next_random_number g
  let Si := bma_deterministic_part exp * exp (bma_stocastic_part_coefficient sqrt * z)
  (if Si - STRIKE_PRICE α > 0
    then exp (-1 * RISK_FREE_RATE α * TIME_TO_MATURITY α) * (Si - STRIKE_PRICE α)
    else 0, g1)

/-- `simulate_new_bma_price_antithetic`, lines 100-111. -/
def simulate_new_bma_price_antithetic (exp sqrt : α → α) (g : RandomEngine α) :
    α × RandomEngine α :=
  let (random_number, g1) := generate_next_random_number g
  let Si_1 := bma_deterministic_part exp
    * exp (bma_stocastic_part_coefficient sqrt * random_number)
  let Si_2 := bma_deterministic_part exp
    * exp (-1.0 * bma_stocastic_part_coefficient sqrt * random_number)
  let Si_1 := if Si_1 - STRIKE_PRICE α > 0 then Si_1 - STRIKE_PRICE α else 0
  let Si_2 := if Si_2 - STRIKE_PRICE α > 0 then Si_2 - STRIKE_PRICE α else 0
  (0.5 * exp (-1 * RISK_FREE_RATE α * TIME_TO_MATURITY α) * (Si_1 + Si_2), g1)

/-! ## Simulation runs (lines 113-151) -/

/-- Conversion of a finite double to `int` (the initialisation of `replicate_count`, lines
115 and 135): the value is truncated toward zero; when the truncated value is not an
`int` the C++ conversion is undefined and `oor` is the value the platform produces
(`INT_MIN` on x86-64). -/
def double_to_int [FloorRing α] (oor : Int) (x : α) : Int :=
  let t : Int := if 0 ≤ x then Int.floor x else Int.ceil x
  if INT_MIN ≤ t ∧ t ≤ INT_MAX then t else oor

/-- The initialiser of `replicate_count`, lines 115 and 135:
`base * pow( REPLICATE_MULTIPLIER_PER_SIMULATION_RUN, simulation_number )`, computed in
`double` and converted to `int`. -/
def replicate_count_of [FloorRing α] (oor : Int) (base : Nat) (simulation_number : Int) :
    Int :=
  double_to_int oor
    ((base : α) * (REPLICATE_MULTIPLIER_PER_SIMULATION_RUN : α) ^ simulation_number)

/-- The body of the `for` loops of lines 119-123 and 139-143, executed `n` times from the
counter value `k`: the state is `(x_bar, y_bar)` and the random engine. The updates are
computed in exact arithmetic; `FP.accumulation_loop` is the same loop with the rounding
of every double operation. -/
def accumulation_loop (sample : RandomEngine α → α × RandomEngine α) :
    Nat → Int → Dbl α × Dbl α × RandomEngine α → Dbl α × Dbl α × RandomEngine α
  | 0, _, s => s
  | n + 1, k, (x_bar, y_bar, g) =>
    let (x_k, g1) := sample g
    let x_bar := (1 - 1 / Dbl.fin (k : α)) * x_bar + 1 / Dbl.fin (k : α) * Dbl.fin x_k
    let y_bar := (1 - 1 / Dbl.fin (k : α)) * y_bar
      + 1 / Dbl.fin (k : α) * Dbl.fin x_k * Dbl.fin x_k
    accumulation_loop sample n (k + 1) (x_bar, y_bar, g1)

/-- Lines 116-123 and 136-143: the first sample initialises `x_bar` and `y_bar`, then the
loop `for( int k = 2; k <= replicate_count; k++ )` runs, which is `replicate_count - 1`
iterations (none when `replicate_count < 2`), for every `replicate_count` below `INT_MAX`
(at `INT_MAX` the increment of `k` would overflow). -/
def accumulate (sample : RandomEngine α → α × RandomEngine α) (replicate_count : Int)
    (g : RandomEngine α) : Dbl α × Dbl α × RandomEngine α :=
  let (x_1, g1) := sample g
  let x_bar : Dbl α := Dbl.fin x_1
  let y_bar : Dbl α := Dbl.fin x_1 * Dbl.fin x_1
  accumulation_loop sample (replicate_count - 1).toNat 2 (x_bar, y_bar, g1)

/-- Lines 124 and 144:
`sqrt( 1.0 / ( replicate_count ) * ( y_bar - x_bar * x_bar ) )`, in exact arithmetic;
`FP.standard_error` is the same line with rounding. -/
def standard_error (sqrt : α → α) (replicate_count : Int) (x_bar y_bar : Dbl α) : Dbl α :=
  Dbl.sqrt sqrt (1 / Dbl.fin (replicate_count : α) * (y_bar - x_bar * x_bar))

/-- Lines 125 and 145: `x_bar - 1.96 * VOLATILITY / sqrt( replicate_count )`, in exact
arithmetic; `FP.confidence_interval_lower` is the same line with rounding. -/
def confidence_interval_lower (sqrt : α → α) (replicate_count : Int) (x_bar : Dbl α) :
    Dbl α :=
  x_bar - Dbl.fin (1.96 * VOLATILITY α) / Dbl.sqrt sqrt (Dbl.fin (replicate_count : α))

/-- Lines 126 and 146: `x_bar + 1.96 * VOLATILITY / sqrt( replicate_count )`, in exact
arithmetic; `FP.confidence_interval_upper` is the same line with rounding. -/
def confidence_interval_upper (sqrt : α → α) (replicate_count : Int) (x_bar : Dbl α) :
    Dbl α :=
  x_bar + Dbl.fin (1.96 * VOLATILITY α) / Dbl.sqrt sqrt (Dbl.fin (replicate_count : α))

/-- One row of the report, the seven values `print_simulation_results` writes. -/
structure ReportRow (α : Type) where
  replicate_count : Int
  estimated_price : Dbl α
  estimated_standard_error : Dbl α
  confidence_interval_lower : Dbl α
  confidence_interval_upper : Dbl α
  runtime_in_seconds : α
  efficiency : Dbl α

/-- `print_simulation_results`, lines 73-82: the row written to the standard output. The
last column is `estimated_standard_error * estimated_standard_error * runtime_in_seconds`. -/
def print_simulation_results (replicate_count : Int) (estimated_price
    estimated_standard_error confidence_interval_lower confidence_interval_upper : Dbl α)
    (runtime_in_seconds : α) : ReportRow α :=
  { replicate_count := replicate_count
    estimated_price := estimated_price
    estimated_standard_error := estimated_standard_error
    confidence_interval_lower := confidence_interval_lower
    confidence_interval_upper := confidence_interval_upper
    runtime_in_seconds := runtime_in_seconds
    efficiency := estimated_standard_error * estimated_standard_error
      * Dbl.fin runtime_in_seconds }

/-- `run_direct_simulation`, lines 113-131. `start` and `finish` are the two readings of
the clock; the result is the printed row and the random engine after the run. -/
def run_direct_simulation [FloorRing α] (exp sqrt : α → α) (oor : Int) (start finish : α)
    (simulation_number : Int) (g : RandomEngine α) : ReportRow α × RandomEngine α :=
  let replicate_count : Int := replicate_count_of (α := α) oor
    BASE_NUMBER_OF_REPLICATES_PER_DIRECT_SIMULATION simulation_number
  let (x_bar, y_bar, g1) :=
    accumulate (simulate_new_bma_price_direct exp sqrt) replicate_count g
  let standard_error := standard_error sqrt replicate_count x_bar y_bar
  let confidence_interval_lower := confidence_interval_lower sqrt replicate_count x_bar
  let confidence_interval_upper := confidence_interval_upper sqrt replicate_count x_bar
  let elapsed_time := finish - start
  (print_simulation_results replicate_count x_bar standard_error confidence_interval_lower
    confidence_interval_upper elapsed_time, g1)

/-- `run_antithetic_simulation`, lines 133-151. `start` and `finish` are the two readings
of the clock; the result is the printed row and the random engine after the run. -/
def run_antithetic_simulation [FloorRing α] (exp sqrt : α → α) (oor : Int)
    (start finish : α) (simulation_number : Int) (g : RandomEngine α) :
    ReportRow α × RandomEngine α :=
  let replicate_count : Int := replicate_count_of (α := α) oor
    BASE_NUMBER_OF_REPLICATES_PER_ANTITHETIC_SIMULATION simulation_number
  let (x_bar, y_bar, g1) :=
    accumulate (simulate_new_bma_price_antithetic exp sqrt) replicate_count g
  let standard_error := standard_error sqrt replicate_count x_bar y_bar
  let confidence_interval_lower := confidence_interval_lower sqrt replicate_count x_bar
  let confidence_interval_upper := confidence_interval_upper sqrt replicate_count x_bar
  let elapsed_time := finish - start
  (print_simulation_results replicate_count x_bar standard_error confidence_interval_lower
    confidence_interval_upper elapsed_time, g1)

/-! ## Sweeps (`main`, lines 159-161 and 166-168) -/

/-- The loop `for( int i = 0; i < NUMBER_OF_DIRECT_SIMULATION_RUNS; i++ )` of `main`,
`n` iterations from the index `i`: the rows printed and the engine afterwards. `clock i`
is the pair of clock readings of run `i`. -/
def direct_sweep [FloorRing α] (exp sqrt : α → α) (oor : Int) (clock : Int → α × α) :
    Nat → Int → RandomEngine α → List (ReportRow α) × RandomEngine α
  | 0, _, g => ([], g)
  | n + 1, i, g =>
    let (row, g1) := run_direct_simulation exp sqrt oor (clock i).1 (clock i).2 i g
    let (rows, g2) := direct_sweep exp sqrt oor clock n (i + 1) g1
    (row :: rows, g2)

/-- The loop `for( int i = 0; i < NUMBER_OF_ANTITHETIC_SIMULATION_RUNS; i++ )` of `main`,
`n` iterations from the index `i`. -/
def antithetic_sweep [FloorRing α] (exp sqrt : α → α) (oor : Int) (clock : Int → α × α) :
    Nat → Int → RandomEngine α → List (ReportRow α) × RandomEngine α
  | 0, _, g => ([], g)
  | n + 1, i, g =>
    let (row, g1) := run_antithetic_simulation exp sqrt oor (clock i).1 (clock i).2 i g
    let (rows, g2) := antithetic_sweep exp sqrt oor clock n (i + 1) g1
    (row :: rows, g2)

/-- The run indices a sweep of `n` runs passes, starting from `i`: `i, i+1, ..., i+n-1`. -/
def sweep_indices : Nat → Int → List Int
  | 0, _ => []
  | n + 1, i => i :: sweep_indices n (i + 1)

/-! ## Closed-form price (lines 40-66) and `main` (lines 153-170) -/

/-- `normal_CDF`, lines 40-42. `M_SQRT1_2` is the constant of `<cmath>` and `erfc` the
library function on finite arguments. -/
def normal_CDF (erfc : α → α) (M_SQRT1_2 : α) (value : XDbl α) : XDbl α :=
  XDbl.fin 0.5 * XDbl.erfc erfc (-value * XDbl.fin M_SQRT1_2)

/-- The local `d_1` of `BSM_call`, lines 47-51. -/
def BSM_call_d_1 (log sqrt : α → α) (starting_price strike_price volatility risk_free_rate
    time_to_maturity expected_dividend_yield : XDbl α) : XDbl α :=
  (XDbl.log log (starting_price / strike_price)
    + (risk_free_rate - expected_dividend_yield + XDbl.fin 0.5 * XDbl.pow_2 volatility)
        * time_to_maturity)
  / (volatility * XDbl.sqrt sqrt time_to_maturity)

/-- The local `d_2` of `BSM_call`, lines 53-57. -/
def BSM_call_d_2 (log sqrt : α → α) (starting_price strike_price volatility risk_free_rate
    time_to_maturity expected_dividend_yield : XDbl α) : XDbl α :=
  (XDbl.log log (starting_price / strike_price)
    + (risk_free_rate - expected_dividend_yield - XDbl.fin 0.5 * XDbl.pow_2 volatility)
        * time_to_maturity)
  / (volatility * XDbl.sqrt sqrt time_to_maturity)

/-- `BSM_call`, lines 44-61: the function checks no parameter and returns the double of
lines 59-60 for every argument tuple. -/
def BSM_call (log exp sqrt erfc : α → α) (M_SQRT1_2 : α)
    (starting_price strike_price volatility risk_free_rate time_to_maturity
      expected_dividend_yield : XDbl α) : XDbl α :=
  let d_1 := BSM_call_d_1 log sqrt starting_price strike_price volatility risk_free_rate
    time_to_maturity expected_dividend_yield
  let d_2 := BSM_call_d_2 log sqrt starting_price strike_price volatility risk_free_rate
    time_to_maturity expected_dividend_yield
  starting_price * XDbl.exp exp (-expected_dividend_yield * time_to_maturity)
      * normal_CDF erfc M_SQRT1_2 d_1
    - strike_price * XDbl.exp exp (-risk_free_rate * time_to_maturity)
      * normal_CDF erfc M_SQRT1_2 d_2

/-- `print_bsm_call_price`, lines 63-66: the price written to the standard output. -/
def print_bsm_call_price (log exp sqrt erfc : α → α) (M_SQRT1_2 : α) : XDbl α :=
  BSM_call log exp sqrt erfc M_SQRT1_2 (XDbl.fin (STARTING_PRICE α))
    (XDbl.fin (STRIKE_PRICE α)) (XDbl.fin (VOLATILITY α)) (XDbl.fin (RISK_FREE_RATE α))
    (XDbl.fin (TIME_TO_MATURITY α)) (XDbl.fin (EXPECTED_DIVIDEND_YIELD α))

/-- The values `main` writes to the standard output: the closed-form price and the rows
of the two tables (the label and header lines are constant text). -/
structure ProgramOutput (α : Type) where
  bsm_call_price : XDbl α
  direct_rows : List (ReportRow α)
  antithetic_rows : List (ReportRow α)

/-- `main`, lines 153-170. `clock_direct i` and `clock_antithetic i` are the clock readings
of the `i`-th run of each sweep; the antithetic sweep continues with the engine the direct
sweep leaves. -/
def main [FloorRing α] (log exp sqrt erfc : α → α) (M_SQRT1_2 : α) (oor : Int)
    (clock_direct clock_antithetic : Int → α × α) (g : RandomEngine α) : ProgramOutput α :=
  let bsm_call := print_bsm_call_price log exp sqrt erfc M_SQRT1_2
  let (direct_rows, g1) :=
    direct_sweep exp sqrt oor clock_direct NUMBER_OF_DIRECT_SIMULATION_RUNS 0 g
  let (antithetic_rows, _) :=
    antithetic_sweep exp sqrt oor clock_antithetic NUMBER_OF_ANTITHETIC_SIMULATION_RUNS 0 g1
  { bsm_call_price := bsm_call
    direct_rows := direct_rows
    antithetic_rows := antithetic_rows }

/-- The columns of a row that do not involve the clock: `sample_size`, `estimated_price`,
`estimated_standard_error` and the two confidence bounds. -/
def ReportRow.statistics (row : ReportRow α) : Int × Dbl α × Dbl α × Dbl α × Dbl α :=
  (row.replicate_count, row.estimated_price, row.estimated_standard_error,
    row.confidence_interval_lower, row.confidence_interval_upper)

/-! ## Double-precision model

The definitions of the simulation above compute in exact arithmetic. The definitions of
this section are the same source lines with the rounding of every operation made
explicit, each operation rounded on its own (no fused multiply-add), in the order in
which C++ evaluates the expression: a `FloatEnv` supplies the rounding of an exact result
to a double and the library functions `exp` and `sqrt`. With `binary64` (below) they are
IEEE 754 double precision. The conversion of an `int` to `double` is exact. The runs also
count the divisions whose divisor is zero. -/

/-- A floating-point environment: `rnd` rounds the exact result of an operation, or a
decimal literal, to a double; `exp` and `sqrt` are the library functions on finite
doubles (`sqrt` on the non-negative ones), with their rounding. Overflow to an infinity
is not modelled. -/
structure FloatEnv (α : Type) where
  rnd : α → α
  exp : α → α
  sqrt : α → α

/-- Sum of two doubles, rounded. -/
def FloatEnv.add (E : FloatEnv α) : Dbl α → Dbl α → Dbl α
  | Dbl.fin a, Dbl.fin b => Dbl.fin (E.rnd (a + b))
  | _, _ => Dbl.nonfinite

/-- Difference of two doubles, rounded. -/
def FloatEnv.sub (E : FloatEnv α) : Dbl α → Dbl α → Dbl α
  | Dbl.fin a, Dbl.fin b => Dbl.fin (E.rnd (a - b))
  | _, _ => Dbl.nonfinite

/-- Product of two doubles, rounded. -/
def FloatEnv.mul (E : FloatEnv α) : Dbl α → Dbl α → Dbl α
  | Dbl.fin a, Dbl.fin b => Dbl.fin (E.rnd (a * b))
  | _, _ => Dbl.nonfinite

/-- Quotient of two doubles, rounded: a zero divisor gives an infinity or a
not-a-number. -/
def FloatEnv.div (E : FloatEnv α) : Dbl α → Dbl α → Dbl α
  | Dbl.fin a, Dbl.fin b => if b = 0 then Dbl.nonfinite else Dbl.fin (E.rnd (a / b))
  | _, _ => Dbl.nonfinite

/-- The library `sqrt` on a double: a negative argument gives a not-a-number. -/
def FloatEnv.sqrt_dbl (E : FloatEnv α) : Dbl α → Dbl α
  | Dbl.fin a => if a < 0 then Dbl.nonfinite else Dbl.fin (E.sqrt a)
  | Dbl.nonfinite => Dbl.nonfinite

/-- The number of divisions by zero one division by `b` performs: 1 when `b` is zero. -/
def zero_divisor (b : Dbl α) : Nat :=
  match b with
  | Dbl.fin y => if y = 0 then 1 else 0
  | Dbl.nonfinite => 0

/-- `bma_deterministic_part`, lines 87-89, in doubles. -/
def FP.bma_deterministic_part (E : FloatEnv α) : α :=
  E.rnd (E.rnd (STARTING_PRICE α) * E.exp
    (E.rnd (E.rnd (E.rnd (E.rnd (RISK_FREE_RATE α) - E.rnd (EXPECTED_DIVIDEND_YIELD α))
        - E.rnd (E.rnd (0.5 * E.rnd (VOLATILITY α)) * E.rnd (VOLATILITY α)))
      * E.rnd (TIME_TO_MATURITY α))))

/-- `bma_stocastic_part_coefficient`, line 91, in doubles. -/
def FP.bma_stocastic_part_coefficient (E : FloatEnv α) : α :=
  E.rnd (E.rnd (VOLATILITY α) * E.sqrt (E.rnd (TIME_TO_MATURITY α)))

/-- The discount `exp( -1 * RISK_FREE_RATE * TIME_TO_MATURITY )` of lines 96 and 110, in
doubles. -/
def FP.discount (E : FloatEnv α) : α :=
  E.exp (E.rnd (E.rnd (-1 * E.rnd (RISK_FREE_RATE α)) * E.rnd (TIME_TO_MATURITY α)))

/-- `simulate_new_bma_price_direct`, lines 93-98, in doubles. -/
def FP.simulate_new_bma_price_direct (E : FloatEnv α) (g : RandomEngine α) :
    α × RandomEngine α :=
  let (z, g1) := generate_next_random_number g
  let Si := E.rnd (FP.bma_deterministic_part E
    * E.exp (E.rnd (FP.bma_stocastic_part_coefficient E * z)))
  (if E.rnd (Si - E.rnd (STRIKE_PRICE α)) > 0
    then E.rnd (FP.discount E * E.rnd (Si - E.rnd (STRIKE_PRICE α)))
    else 0, g1)

/-- `simulate_new_bma_price_antithetic`, lines 100-111, in doubles. -/
def FP.simulate_new_bma_price_antithetic (E : FloatEnv α) (g : RandomEngine α) :
    α × RandomEngine α :=
  let (random_number, g1) := generate_next_random_number g
  let Si_1 := E.rnd (FP.bma_deterministic_part E
    * E.exp (E.rnd (FP.bma_stocastic_part_coefficient E * random_number)))
  let Si_2 := E.rnd (FP.bma_deterministic_part E
    * E.exp (E.rnd (E.rnd (-1.0 * FP.bma_stocastic_part_coefficient E) * random_number)))
  let Si_1 := if E.rnd (Si_1 - E.rnd (STRIKE_PRICE α)) > 0
    then E.rnd (Si_1 - E.rnd (STRIKE_PRICE α)) else 0
  let Si_2 := if E.rnd (Si_2 - E.rnd (STRIKE_PRICE α)) > 0
    then E.rnd (Si_2 - E.rnd (STRIKE_PRICE α)) else 0
  (E.rnd (E.rnd (0.5 * FP.discount E) * E.rnd (Si_1 + Si_2)), g1)

/-- The initialiser of `replicate_count`, lines 115 and 135, in doubles: `pow` returns the
rounded power, the product is rounded and converted to `int`. -/
def FP.replicate_count_of [FloorRing α] (E : FloatEnv α) (oor : Int) (base : Nat)
    (simulation_number : Int) : Int :=
  double_to_int oor
    (E.rnd ((base : α)
      * E.rnd ((REPLICATE_MULTIPLIER_PER_SIMULATION_RUN : α) ^ simulation_number)))

/-- The body of the `for` loops of lines 119-123 and 139-143 in doubles, executed `n`
times from the counter value `k`. The state is `(x_bar, y_bar)`, the random engine, and
the number of divisions by zero so far: each iteration divides four times by `k`. -/
def FP.accumulation_loop (E : FloatEnv α) (sample : RandomEngine α → α × RandomEngine α) :
    Nat → Int → Dbl α × Dbl α × RandomEngine α × Nat → Dbl α × Dbl α × RandomEngine α × Nat
  | 0, _, s => s
  | n + 1, k, (x_bar, y_bar, g, zero_divisions) =>
    let (x_k, g1) := sample g
    let x_bar := E.add (E.mul (E.sub 1 (E.div 1 (Dbl.fin (k : α)))) x_bar)
      (E.mul (E.div 1 (Dbl.fin (k : α))) (Dbl.fin x_k))
    let y_bar := E.add (E.mul (E.sub 1 (E.div 1 (Dbl.fin (k : α)))) y_bar)
      (E.mul (E.mul (E.div 1 (Dbl.fin (k : α))) (Dbl.fin x_k)) (Dbl.fin x_k))
    FP.accumulation_loop E sample n (k + 1)
      (x_bar, y_bar, g1, zero_divisions + 4 * zero_divisor (Dbl.fin (k : α)))

/-- Lines 116-123 and 136-143 in doubles: the first sample initialises `x_bar` and
`y_bar`, then the loop runs `replicate_count - 1` times (for `replicate_count` below
`INT_MAX`). -/
def FP.accumulate (E : FloatEnv α) (sample : RandomEngine α → α × RandomEngine α)
    (replicate_count : Int) (g : RandomEngine α) : Dbl α × Dbl α × RandomEngine α × Nat :=
  let (x_1, g1) := sample g
  let x_bar : Dbl α := Dbl.fin x_1
  let y_bar : Dbl α := E.mul (Dbl.fin x_1) (Dbl.fin x_1)
  FP.accumulation_loop E sample (replicate_count - 1).toNat 2 (x_bar, y_bar, g1, 0)

/-- Lines 124 and 144 in doubles. -/
def FP.standard_error (E : FloatEnv α) (replicate_count : Int) (x_bar y_bar : Dbl α) :
    Dbl α :=
  E.sqrt_dbl (E.mul (E.div 1 (Dbl.fin (replicate_count : α)))
    (E.sub y_bar (E.mul x_bar x_bar)))

/-- Lines 125 and 145 in doubles. -/
def FP.confidence_interval_lower (E : FloatEnv α) (replicate_count : Int) (x_bar : Dbl α) :
    Dbl α :=
  E.sub x_bar (E.div (Dbl.fin (E.rnd (E.rnd 1.96 * E.rnd (VOLATILITY α))))
    (E.sqrt_dbl (Dbl.fin (replicate_count : α))))

/-- Lines 126 and 146 in doubles. -/
def FP.confidence_interval_upper (E : FloatEnv α) (replicate_count : Int) (x_bar : Dbl α) :
    Dbl α :=
  E.add x_bar (E.div (Dbl.fin (E.rnd (E.rnd 1.96 * E.rnd (VOLATILITY α))))
    (E.sqrt_dbl (Dbl.fin (replicate_count : α))))

/-- `print_simulation_results`, lines 73-82, in doubles. -/
def FP.print_simulation_results (E : FloatEnv α) (replicate_count : Int) (estimated_price
    estimated_standard_error confidence_interval_lower confidence_interval_upper : Dbl α)
    (runtime_in_seconds : α) : ReportRow α :=
  { replicate_count := replicate_count
    estimated_price := estimated_price
    estimated_standard_error := estimated_standard_error
    confidence_interval_lower := confidence_interval_lower
    confidence_interval_upper := confidence_interval_upper
    runtime_in_seconds := runtime_in_seconds
    efficiency := E.mul (E.mul estimated_standard_error estimated_standard_error)
      (Dbl.fin runtime_in_seconds) }

/-- The result of a run in doubles: the printed row, the random engine after the run, and
the number of divisions by zero the run performed. -/
structure FP.RunResult (α : Type) where
  row : ReportRow α
  engine : RandomEngine α
  zero_divisions : Nat

/-- Lines 116-130 and 136-150 in doubles, for a sampling function and a replicate count:
the accumulation, then one division by `replicate_count` (lines 124, 144) and two
divisions by `sqrt( replicate_count )` (lines 125-126, 145-146). -/
def FP.run_with (E : FloatEnv α) (sample : RandomEngine α → α × RandomEngine α)
    (replicate_count : Int) (start finish : α) (g : RandomEngine α) : FP.RunResult α :=
  let (x_bar, y_bar, g1, zero_divisions) := FP.accumulate E sample replicate_count g
  let standard_error := FP.standard_error E replicate_count x_bar y_bar
  let confidence_interval_lower := FP.confidence_interval_lower E replicate_count x_bar
  let confidence_interval_upper := FP.confidence_interval_upper E replicate_count x_bar
  let elapsed_time := E.rnd (finish - start)
  { row := FP.print_simulation_results E replicate_count x_bar standard_error
      confidence_interval_lower confidence_interval_upper elapsed_time
    engine := g1
    zero_divisions := zero_divisions + zero_divisor (Dbl.fin (replicate_count : α))
      + 2 * zero_divisor (E.sqrt_dbl (Dbl.fin (replicate_count : α))) }

/-- `run_direct_simulation`, lines 113-131, in doubles. -/
def FP.run_direct_simulation [FloorRing α] (E : FloatEnv α) (oor : Int) (start finish : α)
    (simulation_number : Int) (g : RandomEngine α) : FP.RunResult α :=
  FP.run_with E (FP.simulate_new_bma_price_direct E)
    (FP.replicate_count_of E oor BASE_NUMBER_OF_REPLICATES_PER_DIRECT_SIMULATION
      simulation_number) start finish g

/-- `run_antithetic_simulation`, lines 133-151, in doubles. -/
def FP.run_antithetic_simulation [FloorRing α] (E : FloatEnv α) (oor : Int)
    (start finish : α) (simulation_number : Int) (g : RandomEngine α) : FP.RunResult α :=
  FP.run_with E (FP.simulate_new_bma_price_antithetic E)
    (FP.replicate_count_of E oor BASE_NUMBER_OF_REPLICATES_PER_ANTITHETIC_SIMULATION
      simulation_number) start finish g

end Model

/-! ## IEEE 754 double precision on the rationals -/

/-- The largest `e` below `2 ^ j` with `2 ^ (acc + e) ≤ n`, added to `acc`: for `n ≥ 1`,
`binary_exponent 12 0 n` is the position of the leading bit of `n` (`n < 2 ^ 4096`). -/
def binary_exponent : Nat → Nat → Nat → Nat
  | 0, acc, _ => acc
  | j + 1, acc, n =>
    if 2 ^ (acc + 2 ^ j) ≤ n then binary_exponent j (acc + 2 ^ j) n
    else binary_exponent j acc n

/-- The quotient `n / d` of naturals rounded to the nearest natural, ties to even. -/
def div_half_even (n d : Nat) : Nat :=
  let q := n / d
  let r := n % d
  if 2 * r < d then q else if d < 2 * r then q + 1 else if q % 2 = 0 then q else q + 1

/-- Rounding of a rational to the nearest number with a 53-bit significand, ties to even:
the rounding of IEEE 754 binary64 within its normal range (no overflow, no subnormal
numbers). -/
def round_binary64 (x : ℚ) : ℚ :=
  let n : Nat := x.num.natAbs
  let d : Nat := x.den
  if n = 0 then 0 else
  let e0 : Int := (binary_exponent 12 0 n : Int) - (binary_exponent 12 0 d : Int)
  let e : Int :=
    if (if 0 ≤ e0 then d * 2 ^ e0.toNat ≤ n else d ≤ n * 2 ^ (-e0).toNat) then e0
    else e0 - 1
  let s : Int := 52 - e
  let m : Nat :=
    if 0 ≤ s then div_half_even (n * 2 ^ s.toNat) d
    else div_half_even n (d * 2 ^ (-s).toNat)
  let y : ℚ := if 0 ≤ s then mkRat m (2 ^ s.toNat) else mkRat (m * 2 ^ (-s).toNat) 1
  if x.num < 0 then -y else y

/-- Newton iteration for the integer square root, from a start above the root. -/
def isqrt_iter : Nat → Nat → Nat → Nat
  | 0, _, x => x
  | fuel + 1, n, x =>
    let y := (x + n / x) / 2
    if y < x then isqrt_iter fuel n y else x

/-- The integer square root: the largest `s` with `s * s ≤ n` (`n < 2 ^ 4096`). -/
def isqrt (n : Nat) : Nat :=
  if n = 0 then 0 else isqrt_iter 64 n (2 ^ (binary_exponent 12 0 n / 2 + 1))

/-- The square root of IEEE 754 binary64, correctly rounded, of a non-negative rational:
with `s` the integer square root of `x * 4 ^ p` for a scale `p` that leaves `s` more than
64 bits, the root is `s / 2 ^ p` when `x * 4 ^ p` is the square of `s` and lies strictly
between `s / 2 ^ p` and `(s + 1) / 2 ^ p` otherwise, where no rounding boundary lies. -/
def sqrt_binary64 (x : ℚ) : ℚ :=
  let n : Nat := x.num.natAbs
  let d : Nat := x.den
  let p : Nat := 64 + binary_exponent 12 0 d
  let s : Nat := isqrt (n * 4 ^ p / d)
  if s * s * d = n * 4 ^ p then round_binary64 (mkRat s (2 ^ p))
  else round_binary64 (mkRat (2 * s + 1) (2 ^ (p + 1)))

/-- The sum of the first `terms` terms of the exponential series at `x`, from the term
`t = x ^ k / k!`. -/
def exp_series : Nat → Nat → ℚ → ℚ → ℚ
  | 0, _, _, _ => 0
  | terms + 1, k, t, x => t + exp_series terms (k + 1) (t * x / ((k : ℚ) + 1)) x

/-- The exponential rounded to the nearest double, for `|x| ≤ 1`: 30 terms of the series
leave a remainder below `2 ^ (-100)`, far less than the distance of the values used here
to a rounding boundary. -/
def exp_binary64 (x : ℚ) : ℚ :=
  round_binary64 (exp_series 30 0 1 x)

/-- IEEE 754 double precision with a correctly rounded `exp` and `sqrt`. -/
def binary64 : FloatEnv ℚ :=
  { rnd := round_binary64
    exp := exp_binary64
    sqrt := sqrt_binary64 }

section SpecFormulas

variable {α : Type} [LinearOrderedField α]

/-! ## The payoff formulas of the spec (section 4.2) -/

/-- Terminal price of the spec: `S = S0 * exp( (r - q - 0.5*σ²)*T + σ*sqrt(T)*z )`. -/
def spec_terminal_price (exp sqrt : α → α) (z : α) : α :=
  STARTING_PRICE α * exp
    ((RISK_FREE_RATE α - EXPECTED_DIVIDEND_YIELD α - 0.5 * VOLATILITY α ^ 2)
        * TIME_TO_MATURITY α
      + VOLATILITY α * sqrt (TIME_TO_MATURITY α) * z)

/-- Discount factor of the spec: `discount = exp(-r*T)`. -/
def spec_discount (exp : α → α) : α :=
  exp (-(RISK_FREE_RATE α) * TIME_TO_MATURITY α)

/-- Undiscounted payoff of the spec for the draw `u`: `max(S(u) - K, 0)`. -/
def spec_payoff (exp sqrt : α → α) (u : α) : α :=
  max (spec_terminal_price exp sqrt u - STRIKE_PRICE α) 0

/-- Direct payoff sample of the spec: `discount * max(S - K, 0)`. -/
def spec_direct_sample (exp sqrt : α → α) (z : α) : α :=
  spec_discount exp * spec_payoff exp sqrt z

/-- Antithetic payoff sample of the spec:
`0.5 * discount * (max(S1-K,0) + max(S2-K,0))`, `S1` using `z` and `S2` using `-z`. -/
def spec_antithetic_sample (exp sqrt : α → α) (z : α) : α :=
  0.5 * spec_discount exp * (spec_payoff exp sqrt z + spec_payoff exp sqrt (-z))

/-- The engine whose draws are the negated draws of `g`. -/
def negated_engine (g : RandomEngine α) : RandomEngine α :=
  { draws := fun n => -(g.draws n), position := g.position }

/-! ## Whole-sequence statistics (spec, section 8) -/

/-- The first `n` samples a sampling function produces from the engine state `g`. -/
def sample_sequence (sample : RandomEngine α → α × RandomEngine α) :
    Nat → RandomEngine α → List α
  | 0, _ => []
  | n + 1, g => (sample g).1 :: sample_sequence sample n (sample g).2

/-- The engine state after `n` calls of a sampling function. -/
def engine_after (sample : RandomEngine α → α × RandomEngine α) :
    Nat → RandomEngine α → RandomEngine α
  | 0, g => g
  | n + 1, g => engine_after sample n (sample g).2

/-- Whole-sequence mean of the spec: `(1/N) * sum x_i`. -/
def whole_sequence_mean (xs : List α) : α :=
  1 / (xs.length : α) * xs.sum

/-- Whole-sequence second moment of the spec: `(1/N) * sum x_i^2`. -/
def whole_sequence_second_moment (xs : List α) : α :=
  1 / (xs.length : α) * (xs.map (fun x => x ^ 2)).sum

end SpecFormulas

/-! ## Arithmetic of `Dbl` on finite operands -/

section Lemmas

variable {α : Type} [LinearOrderedField α]

theorem Dbl.fin_add_fin (a b : α) : Dbl.fin a + Dbl.fin b = Dbl.fin (a + b) := rfl

theorem Dbl.fin_sub_fin (a b : α) : Dbl.fin a - Dbl.fin b = Dbl.fin (a - b) := rfl

theorem Dbl.fin_mul_fin (a b : α) : Dbl.fin a * Dbl.fin b = Dbl.fin (a * b) := rfl

theorem Dbl.one_eq_fin : (1 : Dbl α) = Dbl.fin 1 := rfl

theorem Dbl.fin_div_fin (a b : α) (hb : b ≠ 0) : Dbl.fin a / Dbl.fin b = Dbl.fin (a / b) := by
  show Dbl.div (Dbl.fin a) (Dbl.fin b) = _
  simp [Dbl.div, hb]

theorem Dbl.fin_div_zero (a : α) : Dbl.fin a / Dbl.fin (0 : α) = Dbl.nonfinite := by
  show Dbl.div (Dbl.fin a) (Dbl.fin 0) = _
  simp [Dbl.div]

theorem Dbl.sqrt_fin_of_nonneg (sqrt : α → α) (a : α) (ha : 0 ≤ a) :
    Dbl.sqrt sqrt (Dbl.fin a) = Dbl.fin (sqrt a) := by
  simp [Dbl.sqrt, not_lt.mpr ha]

theorem Dbl.sqrt_fin_of_neg (sqrt : α → α) (a : α) (ha : a < 0) :
    Dbl.sqrt sqrt (Dbl.fin a) = Dbl.nonfinite := by
  simp [Dbl.sqrt, ha]

/-- One iteration of the loop body on finite values, for a non-zero counter. -/
theorem accumulation_loop_succ_fin (sample : RandomEngine α → α × RandomEngine α) (n : Nat)
    (k : Int) (hk : (k : α) ≠ 0) (x y : α) (g : RandomEngine α) :
    accumulation_loop sample (n + 1) k (Dbl.fin x, Dbl.fin y, g)
      = accumulation_loop sample n (k + 1)
          (Dbl.fin ((1 - 1 / (k : α)) * x + 1 / (k : α) * (sample g).1),
           Dbl.fin ((1 - 1 / (k : α)) * y + 1 / (k : α) * (sample g).1 * (sample g).1),
           (sample g).2) := by
  simp only [accumulation_loop, Dbl.one_eq_fin, Dbl.fin_div_fin _ _ hk, Dbl.fin_sub_fin,
    Dbl.fin_mul_fin, Dbl.fin_add_fin]

theorem sample_sequence_length {β : Type} (sample : RandomEngine β → β × RandomEngine β)
    (n : Nat) (g : RandomEngine β) : (sample_sequence sample n g).length = n := by
  induction n generalizing g with
  | zero => rfl
  | succ n ih => simp [sample_sequence, ih]

/-- Closed form of the loop: started after `m ≥ 1` samples with sum `s` and sum of squares
`q`, `n` further iterations leave the sums of all `m + n` samples divided by `m + n`. -/
theorem accumulation_loop_closed_form (sample : RandomEngine α → α × RandomEngine α)
    (n : Nat) : ∀ (m : Nat), 1 ≤ m → ∀ (s q : α) (g : RandomEngine α),
    accumulation_loop sample n ((m : Int) + 1) (Dbl.fin (s / m), Dbl.fin (q / m), g)
      = (Dbl.fin ((s + (sample_sequence sample n g).sum) / ((m + n : Nat) : α)),
         Dbl.fin ((q + ((sample_sequence sample n g).map (fun x => x ^ 2)).sum)
            / ((m + n : Nat) : α)),
         engine_after sample n g) := by
  induction n with
  | zero => intro m _ s q g; simp [accumulation_loop, sample_sequence, engine_after]
  | succ n ih =>
    intro m hm s q g
    have hm0 : (m : α) ≠ 0 := by
      have : (0 : α) < m := by exact_mod_cast hm
      exact ne_of_gt this
    have hk : (((m : Int) + 1 : Int) : α) ≠ 0 := by
      push_cast
      have : (0 : α) ≤ m := Nat.cast_nonneg m
      linarith
    rw [accumulation_loop_succ_fin sample n _ hk]
    have hk1 : (m : α) + 1 ≠ 0 := by
      have : (0 : α) ≤ m := Nat.cast_nonneg m
      linarith
    have e1 : (1 - 1 / (((m : Int) + 1 : Int) : α)) * (s / m)
        + 1 / (((m : Int) + 1 : Int) : α) * (sample g).1
        = (s + (sample g).1) / ((m + 1 : Nat) : α) := by
      push_cast
      field_simp
      ring
    have e2 : (1 - 1 / (((m : Int) + 1 : Int) : α)) * (q / m)
        + 1 / (((m : Int) + 1 : Int) : α) * (sample g).1 * (sample g).1
        = (q + (sample g).1 ^ 2) / ((m + 1 : Nat) : α) := by
      push_cast
      field_simp
      ring
    rw [e1, e2]
    have h := ih (m + 1) (by omega) (s + (sample g).1) (q + (sample g).1 ^ 2) (sample g).2
    have hc : ((m : Int) + 1 : Int) = ((m + 1 : Nat) : Int) := by push_cast; rfl
    rw [hc, h]
    simp only [sample_sequence, engine_after, List.sum_cons, List.map_cons]
    have hmn : m + 1 + n = m + (n + 1) := by omega
    rw [hmn, add_assoc, add_assoc]

theorem ite_pos_eq_max (a : α) : (if a > 0 then a else 0) = max a 0 := by
  rcases le_or_lt a 0 with h | h
  · rw [if_neg (not_lt.mpr h), max_eq_right h]
  · rw [if_pos h, max_eq_left h.le]

/-- The factored terminal price of the code is the terminal price of the spec, for the
real exponential. -/
theorem factored_price_eq_spec (z : ℝ) :
    bma_deterministic_part Real.exp * Real.exp (bma_stocastic_part_coefficient Real.sqrt * z)
      = spec_terminal_price Real.exp Real.sqrt z := by
  simp only [bma_deterministic_part, bma_stocastic_part_coefficient, spec_terminal_price,
    Real.exp_add]
  ring_nf

/-- The value of `simulate_new_bma_price_direct` in terms of the spec's sample. -/
theorem direct_sample_eq_spec (g : RandomEngine ℝ) :
    (simulate_new_bma_price_direct Real.exp Real.sqrt g).1
      = spec_direct_sample Real.exp Real.sqrt (g.draws g.position) := by
  simp only [simulate_new_bma_price_direct, generate_next_random_number,
    factored_price_eq_spec, spec_direct_sample, spec_payoff, spec_discount]
  rw [← ite_pos_eq_max]
  have e : (-1 * RISK_FREE_RATE ℝ * TIME_TO_MATURITY ℝ)
      = -RISK_FREE_RATE ℝ * TIME_TO_MATURITY ℝ := by ring
  rw [e]
  split_ifs <;> simp

/-- The value of `simulate_new_bma_price_antithetic` in terms of the spec's sample. -/
theorem antithetic_sample_eq_spec (g : RandomEngine ℝ) :
    (simulate_new_bma_price_antithetic Real.exp Real.sqrt g).1
      = spec_antithetic_sample Real.exp Real.sqrt (g.draws g.position) := by
  have e2 : ∀ z : ℝ, (-1.0 * bma_stocastic_part_coefficient Real.sqrt * z)
      = bma_stocastic_part_coefficient Real.sqrt * (-z) := by
    intro z; ring
  have e : (-1 * RISK_FREE_RATE ℝ * TIME_TO_MATURITY ℝ)
      = -RISK_FREE_RATE ℝ * TIME_TO_MATURITY ℝ := by ring
  simp only [simulate_new_bma_price_antithetic, generate_next_random_number, e2, e,
    factored_price_eq_spec, spec_antithetic_sample, spec_payoff, spec_discount,
    ite_pos_eq_max]

/-- Running the loop `a + b` times is running it `a` times and then `b` more times. -/
theorem accumulation_loop_add (sample : RandomEngine α → α × RandomEngine α) (a b : Nat) :
    ∀ (k : Int) (s : Dbl α × Dbl α × RandomEngine α),
    accumulation_loop sample (a + b) k s
      = accumulation_loop sample b (k + a) (accumulation_loop sample a k s) := by
  induction a with
  | zero => intro k s; simp [accumulation_loop]
  | succ a ih =>
    intro k s
    obtain ⟨x, y, g⟩ := s
    have e : a + 1 + b = (a + b) + 1 := by omega
    rw [e]
    simp only [accumulation_loop]
    rw [ih]
    have e2 : k + 1 + (a : Int) = k + ((a + 1 : Nat) : Int) := by push_cast; ring
    rw [e2]

/-- One update keeps the second moment above the square of the mean: with weight
`w = 1/k`, `k ≥ 2`, the new variance is `(1-w)*(y - x²) + w*(1-w)*(x - v)²`. -/
theorem update_preserves_variance_nonneg (k : Int) (hk : 2 ≤ k) (x y v : α)
    (h : x * x ≤ y) :
    ((1 - 1 / (k : α)) * x + 1 / (k : α) * v) * ((1 - 1 / (k : α)) * x + 1 / (k : α) * v)
      ≤ (1 - 1 / (k : α)) * y + 1 / (k : α) * v * v := by
  have hk2 : (2 : α) ≤ (k : α) := by exact_mod_cast hk
  have hkpos : (0 : α) < (k : α) := by linarith
  have hw0 : (0 : α) ≤ 1 / (k : α) := by positivity
  have hw1 : 1 / (k : α) ≤ 1 := by
    rw [div_le_one hkpos]; linarith
  have h1 : (0 : α) ≤ 1 - 1 / (k : α) := by linarith
  have key : (1 - 1 / (k : α)) * y + 1 / (k : α) * v * v
      - ((1 - 1 / (k : α)) * x + 1 / (k : α) * v) * ((1 - 1 / (k : α)) * x + 1 / (k : α) * v)
      = (1 - 1 / (k : α)) * (y - x * x)
        + 1 / (k : α) * (1 - 1 / (k : α)) * ((x - v) * (x - v)) := by ring
  have p1 : (0 : α) ≤ (1 - 1 / (k : α)) * (y - x * x) :=
    mul_nonneg h1 (by linarith)
  have p2 : (0 : α) ≤ 1 / (k : α) * (1 - 1 / (k : α)) * ((x - v) * (x - v)) :=
    mul_nonneg (mul_nonneg hw0 h1) (mul_self_nonneg _)
  linarith

/-- The loop keeps the state finite with `x_bar * x_bar ≤ y_bar`, from any counter
`k ≥ 2`. -/
theorem accumulation_loop_invariant (sample : RandomEngine α → α × RandomEngine α)
    (n : Nat) : ∀ (k : Int), 2 ≤ k → ∀ (x y : α) (g : RandomEngine α), x * x ≤ y →
    ∃ (x1 y1 : α) (g1 : RandomEngine α),
      accumulation_loop sample n k (Dbl.fin x, Dbl.fin y, g) = (Dbl.fin x1, Dbl.fin y1, g1)
      ∧ x1 * x1 ≤ y1 := by
  induction n with
  | zero => intro k _ x y g h; exact ⟨x, y, g, rfl, h⟩
  | succ n ih =>
    intro k hk x y g h
    have hk0 : (k : α) ≠ 0 := by
      have : (2 : α) ≤ (k : α) := by exact_mod_cast hk
      intro h0; rw [h0] at this; linarith
    rw [accumulation_loop_succ_fin sample n k hk0]
    exact ih (k + 1) (by omega) _ _ _
      (update_preserves_variance_nonneg k hk x y (sample g).1 h)

/-- The double `base * pow(10, i)` for a natural index is the integer `base * 10 ^ i`. -/
theorem base_mul_pow_cast (base i : Nat) :
    ((base : α) * (REPLICATE_MULTIPLIER_PER_SIMULATION_RUN : α) ^ ((i : Nat) : Int))
      = ((base * 10 ^ i : Nat) : α) := by
  simp [REPLICATE_MULTIPLIER_PER_SIMULATION_RUN]

/-- Within the range of `int` the replicate count is `base * 10 ^ i`. -/
theorem replicate_count_of_fits [FloorRing α] (oor : Int) (base i : Nat)
    (h : ((base * 10 ^ i : Nat) : Int) ≤ INT_MAX) :
    replicate_count_of (α := α) oor base (i : Int) = ((base * 10 ^ i : Nat) : Int) := by
  unfold replicate_count_of double_to_int
  rw [base_mul_pow_cast]
  have h0 : (0 : α) ≤ ((base * 10 ^ i : Nat) : α) := Nat.cast_nonneg _
  simp only [h0, if_true, Int.floor_natCast]
  have hmin : INT_MIN ≤ ((base * 10 ^ i : Nat) : Int) := by
    have : (0 : Int) ≤ ((base * 10 ^ i : Nat) : Int) := Int.natCast_nonneg _
    unfold INT_MIN; omega
  rw [if_pos ⟨hmin, h⟩]

/-- Beyond the range of `int` the replicate count is the out-of-range conversion result. -/
theorem replicate_count_of_overflow [FloorRing α] (oor : Int) (base i : Nat)
    (h : INT_MAX < ((base * 10 ^ i : Nat) : Int)) :
    replicate_count_of (α := α) oor base (i : Int) = oor := by
  unfold replicate_count_of double_to_int
  rw [base_mul_pow_cast]
  have h0 : (0 : α) ≤ ((base * 10 ^ i : Nat) : α) := Nat.cast_nonneg _
  simp only [h0, if_true, Int.floor_natCast]
  rw [if_neg]
  intro hc
  exact absurd hc.2 (not_le.mpr h)

/-- The count in the row of a direct run is the converted `base * pow(10, i)`. -/
theorem run_direct_simulation_replicate_count [FloorRing α] (exp sqrt : α → α) (oor : Int)
    (start finish : α) (i : Int) (g : RandomEngine α) :
    (run_direct_simulation exp sqrt oor start finish i g).1.replicate_count
      = replicate_count_of (α := α) oor BASE_NUMBER_OF_REPLICATES_PER_DIRECT_SIMULATION i := by
  unfold run_direct_simulation
  rcases accumulate (simulate_new_bma_price_direct exp sqrt)
    (replicate_count_of (α := α) oor BASE_NUMBER_OF_REPLICATES_PER_DIRECT_SIMULATION i) g
    with ⟨x, y, g1⟩
  rfl

/-- The count in the row of an antithetic run is the converted `base * pow(10, i)`. -/
theorem run_antithetic_simulation_replicate_count [FloorRing α] (exp sqrt : α → α)
    (oor : Int) (start finish : α) (i : Int) (g : RandomEngine α) :
    (run_antithetic_simulation exp sqrt oor start finish i g).1.replicate_count
      = replicate_count_of (α := α) oor
          BASE_NUMBER_OF_REPLICATES_PER_ANTITHETIC_SIMULATION i := by
  unfold run_antithetic_simulation
  rcases accumulate (simulate_new_bma_price_antithetic exp sqrt)
    (replicate_count_of (α := α) oor BASE_NUMBER_OF_REPLICATES_PER_ANTITHETIC_SIMULATION i) g
    with ⟨x, y, g1⟩
  rfl

/-- The counts of the rows of a direct sweep, run by run. -/
theorem direct_sweep_replicate_counts [FloorRing α] (exp sqrt : α → α) (oor : Int)
    (clock : Int → α × α) (n : Nat) : ∀ (i : Int) (g : RandomEngine α),
    (direct_sweep exp sqrt oor clock n i g).1.map ReportRow.replicate_count
      = (sweep_indices n i).map (fun j => replicate_count_of (α := α) oor
          BASE_NUMBER_OF_REPLICATES_PER_DIRECT_SIMULATION j) := by
  induction n with
  | zero => intro i g; rfl
  | succ n ih =>
    intro i g
    have h := ih (i + 1)
      (run_direct_simulation exp sqrt oor (clock i).1 (clock i).2 i g).2
    simp only [direct_sweep, sweep_indices, List.map_cons,
      run_direct_simulation_replicate_count, h]

/-- The counts of the rows of an antithetic sweep, run by run. -/
theorem antithetic_sweep_replicate_counts [FloorRing α] (exp sqrt : α → α) (oor : Int)
    (clock : Int → α × α) (n : Nat) : ∀ (i : Int) (g : RandomEngine α),
    (antithetic_sweep exp sqrt oor clock n i g).1.map ReportRow.replicate_count
      = (sweep_indices n i).map (fun j => replicate_count_of (α := α) oor
          BASE_NUMBER_OF_REPLICATES_PER_ANTITHETIC_SIMULATION j) := by
  induction n with
  | zero => intro i g; rfl
  | succ n ih =>
    intro i g
    have h := ih (i + 1)
      (run_antithetic_simulation exp sqrt oor (clock i).1 (clock i).2 i g).2
    simp only [antithetic_sweep, sweep_indices, List.map_cons,
      run_antithetic_simulation_replicate_count, h]

/-- The row and the engine a direct run returns, in terms of its accumulation. -/
theorem run_direct_simulation_eq [FloorRing α] (exp sqrt : α → α) (oor : Int)
    (start finish : α) (i : Int) (g : RandomEngine α) (N : Int) (x_bar y_bar : Dbl α)
    (g1 : RandomEngine α)
    (hN : replicate_count_of (α := α) oor BASE_NUMBER_OF_REPLICATES_PER_DIRECT_SIMULATION i
      = N)
    (hacc : accumulate (simulate_new_bma_price_direct exp sqrt) N g = (x_bar, y_bar, g1)) :
    run_direct_simulation exp sqrt oor start finish i g
      = (print_simulation_results N x_bar (standard_error sqrt N x_bar y_bar)
          (confidence_interval_lower sqrt N x_bar) (confidence_interval_upper sqrt N x_bar)
          (finish - start), g1) := by
  unfold run_direct_simulation
  simp only [hN, hacc]

/-- The row and the engine an antithetic run returns, in terms of its accumulation. -/
theorem run_antithetic_simulation_eq [FloorRing α] (exp sqrt : α → α) (oor : Int)
    (start finish : α) (i : Int) (g : RandomEngine α) (N : Int) (x_bar y_bar : Dbl α)
    (g1 : RandomEngine α)
    (hN : replicate_count_of (α := α) oor
      BASE_NUMBER_OF_REPLICATES_PER_ANTITHETIC_SIMULATION i = N)
    (hacc : accumulate (simulate_new_bma_price_antithetic exp sqrt) N g
      = (x_bar, y_bar, g1)) :
    run_antithetic_simulation exp sqrt oor start finish i g
      = (print_simulation_results N x_bar (standard_error sqrt N x_bar y_bar)
          (confidence_interval_lower sqrt N x_bar) (confidence_interval_upper sqrt N x_bar)
          (finish - start), g1) := by
  unfold run_antithetic_simulation
  simp only [hN, hacc]

/-- For `N ≥ 1` the accumulation ends in a finite state with `x_bar * x_bar ≤ y_bar`. -/
theorem accumulate_finite (sample : RandomEngine α → α × RandomEngine α) (N : Int)
    (g : RandomEngine α) :
    ∃ (x y : α) (g1 : RandomEngine α),
      accumulate sample N g = (Dbl.fin x, Dbl.fin y, g1) ∧ x * x ≤ y := by
  obtain ⟨x1, y1, g1, h1, h2⟩ := accumulation_loop_invariant sample (N - 1).toNat 2 le_rfl
    (sample g).1 ((sample g).1 * (sample g).1) (sample g).2 le_rfl
  exact ⟨x1, y1, g1, by simp only [accumulate, Dbl.fin_mul_fin]; exact h1, h2⟩

/-- The real square root of a replicate count `N ≥ 1` is defined and not zero. -/
theorem sqrt_replicate_count (N : Int) (hN : 1 ≤ N) :
    Dbl.sqrt Real.sqrt (Dbl.fin (N : ℝ)) = Dbl.fin (Real.sqrt (N : ℝ))
      ∧ Real.sqrt (N : ℝ) ≠ 0 := by
  have h1 : (1 : ℝ) ≤ (N : ℝ) := by exact_mod_cast hN
  have h0 : (0 : ℝ) < (N : ℝ) := by linarith
  exact ⟨Dbl.sqrt_fin_of_nonneg _ _ h0.le, ne_of_gt (Real.sqrt_pos.mpr h0)⟩

/-- Width of the confidence interval around a finite mean, for `N ≥ 1`. -/
theorem confidence_interval_width (N : Int) (hN : 1 ≤ N) (x : ℝ) :
    confidence_interval_upper Real.sqrt N (Dbl.fin x)
        - confidence_interval_lower Real.sqrt N (Dbl.fin x)
      = Dbl.fin (2 * 1.96 * VOLATILITY ℝ / Real.sqrt (N : ℝ)) := by
  obtain ⟨hs, hs0⟩ := sqrt_replicate_count N hN
  simp only [confidence_interval_upper, confidence_interval_lower, hs,
    Dbl.fin_div_fin _ _ hs0, Dbl.fin_add_fin, Dbl.fin_sub_fin]
  congr 1
  ring

/-- The replicate count of a direct run for the indices of the sweep. -/
theorem direct_replicate_count_in_sweep [FloorRing α] (oor : Int) (i : Int) (h0 : 0 ≤ i)
    (h6 : i < 6) :
    replicate_count_of (α := α) oor BASE_NUMBER_OF_REPLICATES_PER_DIRECT_SIMULATION i
      = 1000 * 10 ^ i.toNat := by
  obtain ⟨j, rfl⟩ : ∃ j : Nat, i = (j : Int) := ⟨i.toNat, by omega⟩
  have hj : j < 6 := by omega
  rw [replicate_count_of_fits]
  · simp [BASE_NUMBER_OF_REPLICATES_PER_DIRECT_SIMULATION]
  · unfold BASE_NUMBER_OF_REPLICATES_PER_DIRECT_SIMULATION INT_MAX
    interval_cases j <;> norm_num

/-- The replicate count of an antithetic run for the indices of the sweep. -/
theorem antithetic_replicate_count_in_sweep [FloorRing α] (oor : Int) (i : Int)
    (h0 : 0 ≤ i) (h5 : i < 5) :
    replicate_count_of (α := α) oor BASE_NUMBER_OF_REPLICATES_PER_ANTITHETIC_SIMULATION i
      = 4000 * 10 ^ i.toNat := by
  obtain ⟨j, rfl⟩ : ∃ j : Nat, i = (j : Int) := ⟨i.toNat, by omega⟩
  have hj : j < 5 := by omega
  rw [replicate_count_of_fits]
  · simp [BASE_NUMBER_OF_REPLICATES_PER_ANTITHETIC_SIMULATION]
  · unfold BASE_NUMBER_OF_REPLICATES_PER_ANTITHETIC_SIMULATION INT_MAX
    interval_cases j <;> norm_num

/-- No run of the direct sweep has the replicate count of a run of the antithetic sweep:
`1000 * 10^i` with `0 ≤ i < 6` is never `4000 * 10^j` with `0 ≤ j < 5`. -/
theorem sweep_replicate_counts_differ [FloorRing α] (exp sqrt : α → α) (oor : Int)
    (start finish start2 finish2 : α) (i j : Int) (hi0 : 0 ≤ i) (hi : i < 6) (hj0 : 0 ≤ j)
    (hj : j < 5) (g g2 : RandomEngine α) :
    (run_direct_simulation exp sqrt oor start finish i g).1.replicate_count
      ≠ (run_antithetic_simulation exp sqrt oor start2 finish2 j g2).1.replicate_count := by
  rw [run_direct_simulation_replicate_count, run_antithetic_simulation_replicate_count,
    direct_replicate_count_in_sweep oor i hi0 hi,
    antithetic_replicate_count_in_sweep oor j hj0 hj]
  obtain ⟨a, rfl⟩ := Int.eq_ofNat_of_zero_le hi0
  obtain ⟨b, rfl⟩ := Int.eq_ofNat_of_zero_le hj0
  have ha : a < 6 := by omega
  have hb : b < 5 := by omega
  simp only [Int.toNat_ofNat]
  interval_cases a <;> interval_cases b <;> norm_num

/-- The standard error of a finite state, for a non-zero replicate count. -/
theorem standard_error_fin (sqrt : α → α) (N : Int) (hN : (N : α) ≠ 0) (x y : α) :
    standard_error sqrt N (Dbl.fin x) (Dbl.fin y)
      = Dbl.sqrt sqrt (Dbl.fin (1 / (N : α) * (y - x * x))) := by
  simp only [standard_error, Dbl.one_eq_fin, Dbl.fin_div_fin _ _ hN, Dbl.fin_mul_fin,
    Dbl.fin_sub_fin]

/-- The exponent of `bma_deterministic_part` is negative. -/
theorem drift_neg :
    (RISK_FREE_RATE ℝ - EXPECTED_DIVIDEND_YIELD ℝ - 0.5 * VOLATILITY ℝ * VOLATILITY ℝ)
      * TIME_TO_MATURITY ℝ < 0 := by
  norm_num [RISK_FREE_RATE, EXPECTED_DIVIDEND_YIELD, VOLATILITY, TIME_TO_MATURITY]

/-- Bounds on `bma_deterministic_part`: between `0.998 * 1868.99` and `1868.99`. -/
theorem bma_deterministic_part_bounds :
    1865 ≤ bma_deterministic_part Real.exp ∧ bma_deterministic_part Real.exp ≤ 1868.99 := by
  have h1 := Real.add_one_le_exp
    ((RISK_FREE_RATE ℝ - EXPECTED_DIVIDEND_YIELD ℝ - 0.5 * VOLATILITY ℝ * VOLATILITY ℝ)
      * TIME_TO_MATURITY ℝ)
  have h2 : Real.exp
      ((RISK_FREE_RATE ℝ - EXPECTED_DIVIDEND_YIELD ℝ - 0.5 * VOLATILITY ℝ * VOLATILITY ℝ)
        * TIME_TO_MATURITY ℝ) ≤ 1 := Real.exp_le_one_iff.mpr drift_neg.le
  have h3 : (0.998 : ℝ) ≤
      (RISK_FREE_RATE ℝ - EXPECTED_DIVIDEND_YIELD ℝ - 0.5 * VOLATILITY ℝ * VOLATILITY ℝ)
        * TIME_TO_MATURITY ℝ + 1 := by
    norm_num [RISK_FREE_RATE, EXPECTED_DIVIDEND_YIELD, VOLATILITY, TIME_TO_MATURITY]
  unfold bma_deterministic_part STARTING_PRICE
  constructor <;> nlinarith

/-- Lower bound on `bma_stocastic_part_coefficient`. -/
theorem bma_stocastic_part_coefficient_lower :
    0.038 ≤ bma_stocastic_part_coefficient Real.sqrt := by
  have h : (0.13 : ℝ) ≤ Real.sqrt (TIME_TO_MATURITY ℝ) := by
    apply Real.le_sqrt_of_sq_le
    norm_num [TIME_TO_MATURITY]
  unfold bma_stocastic_part_coefficient VOLATILITY
  nlinarith

/-- For a draw `z ≤ 0` the simulated price is below the strike. -/
theorem price_le_strike_of_nonpos (z : ℝ) (hz : z ≤ 0) :
    ¬ (bma_deterministic_part Real.exp
        * Real.exp (bma_stocastic_part_coefficient Real.sqrt * z) - STRIKE_PRICE ℝ > 0) := by
  have hc := bma_stocastic_part_coefficient_lower
  have he : Real.exp (bma_stocastic_part_coefficient Real.sqrt * z) ≤ 1 :=
    Real.exp_le_one_iff.mpr (by nlinarith)
  have hp : 0 < Real.exp (bma_stocastic_part_coefficient Real.sqrt * z) := Real.exp_pos _
  obtain ⟨hl, hu⟩ := bma_deterministic_part_bounds
  unfold STRIKE_PRICE
  nlinarith

/-- The final state of the accumulation in terms of the sum and the sum of squares of the
`n + 1` samples. -/
theorem accumulate_sums (sample : RandomEngine α → α × RandomEngine α) (n : Nat)
    (g : RandomEngine α) :
    accumulate sample ((n + 1 : Nat) : Int) g
      = (Dbl.fin ((sample_sequence sample (n + 1) g).sum / ((n + 1 : Nat) : α)),
         Dbl.fin (((sample_sequence sample (n + 1) g).map (fun x => x ^ 2)).sum
            / ((n + 1 : Nat) : α)),
         engine_after sample (n + 1) g) := by
  have h := accumulation_loop_closed_form sample n 1 le_rfl (sample g).1
    ((sample g).1 * (sample g).1) (sample g).2
  have e : (((n + 1 : Nat) : Int) - 1).toNat = n := by omega
  simp only [accumulate, Dbl.fin_mul_fin, e]
  simp only [Nat.cast_one, div_one] at h
  rw [show ((1 : Int) + 1) = 2 by norm_num] at h
  rw [h]
  simp only [sample_sequence, engine_after, List.sum_cons, List.map_cons]
  have e3 : ((1 + n : Nat) : α) = ((n + 1 : Nat) : α) := by rw [Nat.add_comm]
  rw [e3]
  congr 3
  ring

/-- The value and the engine `simulate_new_bma_price_direct` returns. -/
theorem simulate_new_bma_price_direct_pair (g : RandomEngine ℝ) :
    simulate_new_bma_price_direct Real.exp Real.sqrt g
      = (spec_direct_sample Real.exp Real.sqrt (g.draws g.position),
         ⟨g.draws, g.position + 1⟩) :=
  Prod.ext (direct_sample_eq_spec g) rfl

/-- The value and the engine `simulate_new_bma_price_antithetic` returns. -/
theorem simulate_new_bma_price_antithetic_pair (g : RandomEngine ℝ) :
    simulate_new_bma_price_antithetic Real.exp Real.sqrt g
      = ((spec_direct_sample Real.exp Real.sqrt (g.draws g.position)
            + spec_direct_sample Real.exp Real.sqrt (-(g.draws g.position))) / 2,
         ⟨g.draws, g.position + 1⟩) := by
  refine Prod.ext ?_ rfl
  rw [antithetic_sample_eq_spec]
  simp only [spec_antithetic_sample, spec_direct_sample]
  ring

/-- For a draw `z ≤ 0` the terminal price of the spec is at most the strike. -/
theorem spec_price_le_strike_of_nonpos (z : ℝ) (hz : z ≤ 0) :
    spec_terminal_price Real.exp Real.sqrt z - STRIKE_PRICE ℝ ≤ 0 := by
  rw [← factored_price_eq_spec]
  exact not_lt.mp (price_le_strike_of_nonpos z hz)

/-- The discount factor `exp(-r*T)` is positive. -/
theorem spec_discount_pos : 0 < spec_discount Real.exp := Real.exp_pos _

/-- The direct sample of the spec is not negative. -/
theorem spec_direct_sample_nonneg (z : ℝ) : 0 ≤ spec_direct_sample Real.exp Real.sqrt z :=
  mul_nonneg spec_discount_pos.le (le_max_right _ _)

/-- The direct sample of the spec is zero when the price is at most the strike. -/
theorem spec_direct_sample_eq_zero (z : ℝ)
    (h : spec_terminal_price Real.exp Real.sqrt z - STRIKE_PRICE ℝ ≤ 0) :
    spec_direct_sample Real.exp Real.sqrt z = 0 := by
  simp only [spec_direct_sample, spec_payoff, max_eq_right h, mul_zero]

/-- A sampling function that takes one draw per call leaves the engine `n` draws further
after `n` calls. -/
theorem engine_after_of_one_draw {β : Type} (sample : RandomEngine β → β × RandomEngine β)
    (h : ∀ g, (sample g).2 = ⟨g.draws, g.position + 1⟩) (n : Nat) :
    ∀ g : RandomEngine β, engine_after sample n g = ⟨g.draws, g.position + n⟩ := by
  induction n with
  | zero => intro g; rfl
  | succ n ih =>
    intro g
    simp only [engine_after, ih, h]
    have e : g.position + 1 + n = g.position + (n + 1) := by omega
    rw [e]

/-- A sampling function that takes one draw per call produces its `j`-th sample from the
`j`-th draw. -/
theorem sample_sequence_of_one_draw {β : Type}
    (sample : RandomEngine β → β × RandomEngine β)
    (h : ∀ g, (sample g).2 = ⟨g.draws, g.position + 1⟩) (n : Nat) :
    ∀ (g : RandomEngine β) (j : Nat) (hj : j < (sample_sequence sample n g).length),
      (sample_sequence sample n g).get ⟨j, hj⟩
        = (sample ⟨g.draws, g.position + j⟩).1 := by
  induction n with
  | zero => intro g j hj; simp [sample_sequence] at hj
  | succ n ih =>
    intro g j hj
    cases j with
    | zero => rfl
    | succ j =>
      simp only [sample_sequence, List.get_eq_getElem, List.getElem_cons_succ]
      have hj2 : j < (sample_sequence sample n (sample g).2).length := by
        simpa [sample_sequence] using hj
      have := ih (sample g).2 j hj2
      simp only [List.get_eq_getElem] at this
      rw [this, h]
      have e : g.position + 1 + j = g.position + (j + 1) := by omega
      simp only [e]

/-- The final state of the accumulation for `N ≥ 1`: sums of the `N` samples divided by
`N`, and the engine after `N` calls of the sampling function. -/
theorem accumulate_of_pos (sample : RandomEngine α → α × RandomEngine α) (N : Int)
    (hN : 1 ≤ N) (g : RandomEngine α) :
    accumulate sample N g
      = (Dbl.fin ((sample_sequence sample N.toNat g).sum / (N.toNat : α)),
         Dbl.fin (((sample_sequence sample N.toNat g).map (fun x => x ^ 2)).sum
            / (N.toNat : α)),
         engine_after sample N.toNat g) := by
  obtain ⟨n, rfl⟩ : ∃ n : Nat, N = ((n + 1 : Nat) : Int) := ⟨(N - 1).toNat, by omega⟩
  rw [accumulate_sums]
  rfl

/-- The sum of a list lies between its length times a lower and an upper bound of its
elements. -/
theorem list_sum_bounds (xs : List α) :
    (∀ lo : α, (∀ v ∈ xs, lo ≤ v) → (xs.length : α) * lo ≤ xs.sum)
    ∧ (∀ hi : α, (∀ v ∈ xs, v ≤ hi) → xs.sum ≤ (xs.length : α) * hi) := by
  induction xs with
  | nil => simp
  | cons a xs ih =>
    constructor
    · intro lo h
      have h1 := ih.1 lo (fun v hv => h v (List.mem_cons_of_mem _ hv))
      have h2 := h a (List.mem_cons_self _ _)
      simp only [List.length_cons, List.sum_cons, Nat.cast_add, Nat.cast_one]
      linarith
    · intro hi h
      have h1 := ih.2 hi (fun v hv => h v (List.mem_cons_of_mem _ hv))
      have h2 := h a (List.mem_cons_self _ _)
      simp only [List.length_cons, List.sum_cons, Nat.cast_add, Nat.cast_one]
      linarith

/-- For `N ≥ 1` the final mean is finite and lies between every lower bound and every
upper bound of the `N` samples. -/
theorem accumulate_mean_between (sample : RandomEngine α → α × RandomEngine α) (N : Int)
    (hN : 1 ≤ N) (g : RandomEngine α) :
    ∃ x : α, (accumulate sample N g).1 = Dbl.fin x
      ∧ (∀ lo : α, (∀ v ∈ sample_sequence sample N.toNat g, lo ≤ v) → lo ≤ x)
      ∧ (∀ hi : α, (∀ v ∈ sample_sequence sample N.toNat g, v ≤ hi) → x ≤ hi) := by
  have hpos : (0 : α) < (N.toNat : α) := by
    have : 0 < N.toNat := by omega
    exact_mod_cast this
  have hb := list_sum_bounds (sample_sequence sample N.toNat g)
  rw [sample_sequence_length] at hb
  refine ⟨_, by rw [accumulate_of_pos sample N hN g], ?_, ?_⟩
  · intro lo h
    rw [le_div_iff₀ hpos]
    have := hb.1 lo h
    linarith
  · intro hi h
    rw [div_le_iff₀ hpos]
    have := hb.2 hi h
    linarith

/-- Every sample of `simulate_new_bma_price_direct` is non-negative. -/
theorem direct_samples_nonneg (n : Nat) : ∀ (g : RandomEngine ℝ),
    ∀ v ∈ sample_sequence (simulate_new_bma_price_direct Real.exp Real.sqrt) n g, 0 ≤ v := by
  induction n with
  | zero => intro g v hv; simp [sample_sequence] at hv
  | succ n ih =>
    intro g v hv
    simp only [sample_sequence, List.mem_cons] at hv
    rcases hv with rfl | hv
    · rw [direct_sample_eq_spec]; exact spec_direct_sample_nonneg _
    · exact ih _ v hv

/-- Every sample of `simulate_new_bma_price_antithetic` is non-negative. -/
theorem antithetic_samples_nonneg (n : Nat) : ∀ (g : RandomEngine ℝ),
    ∀ v ∈ sample_sequence (simulate_new_bma_price_antithetic Real.exp Real.sqrt) n g,
      0 ≤ v := by
  induction n with
  | zero => intro g v hv; simp [sample_sequence] at hv
  | succ n ih =>
    intro g v hv
    simp only [sample_sequence, List.mem_cons] at hv
    rcases hv with rfl | hv
    · rw [simulate_new_bma_price_antithetic_pair]
      simp only []
      have h1 := spec_direct_sample_nonneg (g.draws g.position)
      have h2 := spec_direct_sample_nonneg (-(g.draws g.position))
      linarith
    · exact ih _ v hv

/-- The direct sample of a draw `z ≥ 1` exceeds 1. -/
theorem direct_sample_gt_one (g : RandomEngine ℝ) (hz : 1 ≤ g.draws g.position) :
    1 < (simulate_new_bma_price_direct Real.exp Real.sqrt g).1 := by
  have hc := bma_stocastic_part_coefficient_lower
  have h1 := Real.add_one_le_exp
    (bma_stocastic_part_coefficient Real.sqrt * g.draws g.position)
  have h2 : (1.038 : ℝ)
      ≤ Real.exp (bma_stocastic_part_coefficient Real.sqrt * g.draws g.position) := by
    nlinarith
  obtain ⟨hl, _⟩ := bma_deterministic_part_bounds
  have hD := Real.add_one_le_exp (-1 * RISK_FREE_RATE ℝ * TIME_TO_MATURITY ℝ)
  have hD2 : (0.99 : ℝ) ≤ -1 * RISK_FREE_RATE ℝ * TIME_TO_MATURITY ℝ + 1 := by
    norm_num [RISK_FREE_RATE, TIME_TO_MATURITY]
  have hS : (65 : ℝ) ≤ bma_deterministic_part Real.exp
      * Real.exp (bma_stocastic_part_coefficient Real.sqrt * g.draws g.position)
      - STRIKE_PRICE ℝ := by
    unfold STRIKE_PRICE
    nlinarith
  simp only [simulate_new_bma_price_direct, generate_next_random_number]
  rw [if_pos (by linarith)]
  nlinarith

/-- What a direct run owes to the clock: the engine it leaves and the statistics of its
row do not depend on the readings, its runtime column is their difference, and the whole
row depends on the readings through that difference only. -/
theorem run_direct_simulation_clock [FloorRing α] (exp sqrt : α → α) (oor : Int)
    (s1 f1 s2 f2 : α) (i : Int) (g : RandomEngine α) :
    (run_direct_simulation exp sqrt oor s1 f1 i g).2
        = (run_direct_simulation exp sqrt oor s2 f2 i g).2
    ∧ (run_direct_simulation exp sqrt oor s1 f1 i g).1.statistics
        = (run_direct_simulation exp sqrt oor s2 f2 i g).1.statistics
    ∧ (run_direct_simulation exp sqrt oor s1 f1 i g).1.runtime_in_seconds = f1 - s1
    ∧ (f1 - s1 = f2 - s2 →
        run_direct_simulation exp sqrt oor s1 f1 i g
          = run_direct_simulation exp sqrt oor s2 f2 i g) := by
  rcases h : accumulate (simulate_new_bma_price_direct exp sqrt)
    (replicate_count_of (α := α) oor BASE_NUMBER_OF_REPLICATES_PER_DIRECT_SIMULATION i) g
    with ⟨x, y, g1⟩
  rw [run_direct_simulation_eq exp sqrt oor s1 f1 i g _ _ _ _ rfl h,
    run_direct_simulation_eq exp sqrt oor s2 f2 i g _ _ _ _ rfl h]
  refine ⟨rfl, rfl, rfl, ?_⟩
  intro he
  rw [he]

/-- What an antithetic run owes to the clock. -/
theorem run_antithetic_simulation_clock [FloorRing α] (exp sqrt : α → α) (oor : Int)
    (s1 f1 s2 f2 : α) (i : Int) (g : RandomEngine α) :
    (run_antithetic_simulation exp sqrt oor s1 f1 i g).2
        = (run_antithetic_simulation exp sqrt oor s2 f2 i g).2
    ∧ (run_antithetic_simulation exp sqrt oor s1 f1 i g).1.statistics
        = (run_antithetic_simulation exp sqrt oor s2 f2 i g).1.statistics
    ∧ (run_antithetic_simulation exp sqrt oor s1 f1 i g).1.runtime_in_seconds = f1 - s1
    ∧ (f1 - s1 = f2 - s2 →
        run_antithetic_simulation exp sqrt oor s1 f1 i g
          = run_antithetic_simulation exp sqrt oor s2 f2 i g) := by
  rcases h : accumulate (simulate_new_bma_price_antithetic exp sqrt)
    (replicate_count_of (α := α) oor BASE_NUMBER_OF_REPLICATES_PER_ANTITHETIC_SIMULATION i) g
    with ⟨x, y, g1⟩
  rw [run_antithetic_simulation_eq exp sqrt oor s1 f1 i g _ _ _ _ rfl h,
    run_antithetic_simulation_eq exp sqrt oor s2 f2 i g _ _ _ _ rfl h]
  refine ⟨rfl, rfl, rfl, ?_⟩
  intro he
  rw [he]

/-- What a direct sweep owes to the clock. -/
theorem direct_sweep_clock [FloorRing α] (exp sqrt : α → α) (oor : Int)
    (c1 c2 : Int → α × α) (n : Nat) : ∀ (i : Int) (g : RandomEngine α),
    (direct_sweep exp sqrt oor c1 n i g).2 = (direct_sweep exp sqrt oor c2 n i g).2
    ∧ (direct_sweep exp sqrt oor c1 n i g).1.map ReportRow.statistics
        = (direct_sweep exp sqrt oor c2 n i g).1.map ReportRow.statistics
    ∧ (direct_sweep exp sqrt oor c1 n i g).1.map ReportRow.runtime_in_seconds
        = (sweep_indices n i).map (fun j => (c1 j).2 - (c1 j).1)
    ∧ ((∀ j, (c1 j).2 - (c1 j).1 = (c2 j).2 - (c2 j).1) →
        direct_sweep exp sqrt oor c1 n i g = direct_sweep exp sqrt oor c2 n i g) := by
  induction n with
  | zero => intro i g; exact ⟨rfl, rfl, rfl, fun _ => rfl⟩
  | succ n ih =>
    intro i g
    obtain ⟨r1, r2, r3, r4⟩ := run_direct_simulation_clock exp sqrt oor (c1 i).1 (c1 i).2
      (c2 i).1 (c2 i).2 i g
    obtain ⟨s1, s2, s3, s4⟩ := ih (i + 1)
      (run_direct_simulation exp sqrt oor (c1 i).1 (c1 i).2 i g).2
    simp only [direct_sweep, sweep_indices, List.map_cons]
    rw [← r1]
    refine ⟨s1, by rw [r2, s2], by rw [r3, s3], ?_⟩
    intro hc
    rw [s4 hc, r4 (hc i)]

/-- What an antithetic sweep owes to the clock. -/
theorem antithetic_sweep_clock [FloorRing α] (exp sqrt : α → α) (oor : Int)
    (c1 c2 : Int → α × α) (n : Nat) : ∀ (i : Int) (g : RandomEngine α),
    (antithetic_sweep exp sqrt oor c1 n i g).2 = (antithetic_sweep exp sqrt oor c2 n i g).2
    ∧ (antithetic_sweep exp sqrt oor c1 n i g).1.map ReportRow.statistics
        = (antithetic_sweep exp sqrt oor c2 n i g).1.map ReportRow.statistics
    ∧ (antithetic_sweep exp sqrt oor c1 n i g).1.map ReportRow.runtime_in_seconds
        = (sweep_indices n i).map (fun j => (c1 j).2 - (c1 j).1)
    ∧ ((∀ j, (c1 j).2 - (c1 j).1 = (c2 j).2 - (c2 j).1) →
        antithetic_sweep exp sqrt oor c1 n i g = antithetic_sweep exp sqrt oor c2 n i g) := by
  induction n with
  | zero => intro i g; exact ⟨rfl, rfl, rfl, fun _ => rfl⟩
  | succ n ih =>
    intro i g
    obtain ⟨r1, r2, r3, r4⟩ := run_antithetic_simulation_clock exp sqrt oor (c1 i).1
      (c1 i).2 (c2 i).1 (c2 i).2 i g
    obtain ⟨s1, s2, s3, s4⟩ := ih (i + 1)
      (run_antithetic_simulation exp sqrt oor (c1 i).1 (c1 i).2 i g).2
    simp only [antithetic_sweep, sweep_indices, List.map_cons]
    rw [← r1]
    refine ⟨s1, by rw [r2, s2], by rw [r3, s3], ?_⟩
    intro hc
    rw [s4 hc, r4 (hc i)]

/-- The output of `main` in terms of the two sweeps. -/
theorem main_eq [FloorRing α] (log exp sqrt erfc : α → α) (M_SQRT1_2 : α) (oor : Int)
    (cd ca : Int → α × α) (g : RandomEngine α) :
    main log exp sqrt erfc M_SQRT1_2 oor cd ca g
      = { bsm_call_price := print_bsm_call_price log exp sqrt erfc M_SQRT1_2
          direct_rows :=
            (direct_sweep exp sqrt oor cd NUMBER_OF_DIRECT_SIMULATION_RUNS 0 g).1
          antithetic_rows :=
            (antithetic_sweep exp sqrt oor ca NUMBER_OF_ANTITHETIC_SIMULATION_RUNS 0
              (direct_sweep exp sqrt oor cd NUMBER_OF_DIRECT_SIMULATION_RUNS 0 g).2).1 } :=
  rfl

/-! ## Arithmetic of `XDbl` -/

theorem XDbl.mul_nan (x : XDbl α) : x * XDbl.nan = XDbl.nan := by
  show XDbl.mul x XDbl.nan = _
  simp [XDbl.mul, XDbl.isNaN]

/-- A discounted factor of lines 59-60 times a not-a-number. -/
theorem BSM_call_factor_nan (exp : α → α) (S x T : XDbl α) :
    S * XDbl.exp exp (-x * T) * XDbl.nan = XDbl.nan :=
  XDbl.mul_nan _

/-- Running the double-precision loop `a + b` times is running it `a` times and then `b`
more times. -/
theorem FP.rounded_loop_add (E : FloatEnv α)
    (sample : RandomEngine α → α × RandomEngine α) (a b : Nat) :
    ∀ (k : Int) (s : Dbl α × Dbl α × RandomEngine α × Nat),
    FP.accumulation_loop E sample (a + b) k s
      = FP.accumulation_loop E sample b (k + a) (FP.accumulation_loop E sample a k s) := by
  induction a with
  | zero => intro k s; simp [FP.accumulation_loop]
  | succ a ih =>
    intro k s
    obtain ⟨x, y, g, c⟩ := s
    have e : a + 1 + b = (a + b) + 1 := by omega
    rw [e]
    simp only [FP.accumulation_loop]
    rw [ih]
    have e2 : k + 1 + (a : Int) = k + ((a + 1 : Nat) : Int) := by push_cast; ring
    rw [e2]

/-- The engine the double-precision loop leaves is the engine after `n` calls of the
sampling function, and from a counter `k ≥ 1` the loop performs no division by zero. -/
theorem FP.accumulation_loop_engine_count (E : FloatEnv α)
    (sample : RandomEngine α → α × RandomEngine α) (n : Nat) :
    ∀ (k : Int) (x y : Dbl α) (g : RandomEngine α) (c : Nat), 1 ≤ k →
    (FP.accumulation_loop E sample n k (x, y, g, c)).2.2.1 = engine_after sample n g
    ∧ (FP.accumulation_loop E sample n k (x, y, g, c)).2.2.2 = c := by
  induction n with
  | zero => intro k x y g c _; exact ⟨rfl, rfl⟩
  | succ n ih =>
    intro k x y g c hk
    have hk0 : (k : α) ≠ 0 := by
      have : (1 : α) ≤ (k : α) := by exact_mod_cast hk
      intro h0; rw [h0] at this; linarith
    have hz : zero_divisor (Dbl.fin (k : α)) = 0 := by simp [zero_divisor, hk0]
    simp only [FP.accumulation_loop, engine_after, hz, Nat.mul_zero, Nat.add_zero]
    exact ih (k + 1) _ _ _ c (by omega)

/-- The values of the double-precision loop depend on the sampling function only through
the samples: a sampling function that returns `v` and advances the engine by one draw on
every engine with the draws `D` can be replaced by the constant one. -/
theorem FP.accumulation_loop_const (E : FloatEnv α)
    (sample : RandomEngine α → α × RandomEngine α) (v : α) (D : Nat → α)
    (h : ∀ p, sample ⟨D, p⟩ = (v, ⟨D, p + 1⟩)) (n : Nat) :
    ∀ (k : Int) (x y : Dbl α) (p c : Nat),
    FP.accumulation_loop E sample n k (x, y, ⟨D, p⟩, c)
      = FP.accumulation_loop E (fun g => (v, ⟨g.draws, g.position + 1⟩)) n k
          (x, y, ⟨D, p⟩, c) := by
  induction n with
  | zero => intro k x y p c; rfl
  | succ n ih =>
    intro k x y p c
    simp only [FP.accumulation_loop, h]
    exact ih _ _ _ _ _

/-- A state of the loop is determined by its four components. -/
theorem FP.state_ext {β : Type} (s : Dbl β × Dbl β × RandomEngine β × Nat) (x y : Dbl β)
    (g : RandomEngine β) (c : Nat) (h1 : s.1 = x) (h2 : s.2.1 = y) (h3 : s.2.2.1 = g)
    (h4 : s.2.2.2 = c) : s = (x, y, g, c) := by
  obtain ⟨a, b, e, d⟩ := s
  simp only at h1 h2 h3 h4
  rw [h1, h2, h3, h4]

/-- The result of a double-precision run from the final state of its accumulation. -/
theorem FP.run_with_eq (E : FloatEnv α) (sample : RandomEngine α → α × RandomEngine α)
    (N : Int) (start finish : α) (g : RandomEngine α) (x_bar y_bar : Dbl α)
    (g1 : RandomEngine α) (c : Nat)
    (hacc : FP.accumulate E sample N g = (x_bar, y_bar, g1, c)) :
    FP.run_with E sample N start finish g
      = { row := FP.print_simulation_results E N x_bar (FP.standard_error E N x_bar y_bar)
            (FP.confidence_interval_lower E N x_bar) (FP.confidence_interval_upper E N x_bar)
            (E.rnd (finish - start))
          engine := g1
          zero_divisions := c + zero_divisor (Dbl.fin (N : α))
            + 2 * zero_divisor (E.sqrt_dbl (Dbl.fin (N : α))) } := by
  unfold FP.run_with
  simp only [hacc]

/-- A double-precision run with a replicate count `N ≥ 1` whose square root is not zero
performs no division by zero. -/
theorem FP.run_with_zero_divisions (E : FloatEnv α)
    (sample : RandomEngine α → α × RandomEngine α) (N : Int) (hN : 1 ≤ N)
    (hsqrt : E.sqrt (N : α) ≠ 0) (start finish : α) (g : RandomEngine α) :
    (FP.run_with E sample N start finish g).zero_divisions = 0 := by
  rcases hacc : FP.accumulate E sample N g with ⟨x, y, g1, c⟩
  have hc : c = 0 := by
    have h := (FP.accumulation_loop_engine_count E sample (N - 1).toNat 2
      (Dbl.fin (sample g).1) (E.mul (Dbl.fin (sample g).1) (Dbl.fin (sample g).1))
      (sample g).2 0 (by norm_num)).2
    have e : FP.accumulate E sample N g
        = FP.accumulation_loop E sample (N - 1).toNat 2
            (Dbl.fin (sample g).1, E.mul (Dbl.fin (sample g).1) (Dbl.fin (sample g).1),
              (sample g).2, 0) := rfl
    rw [← e, hacc] at h
    exact h
  have h1 : (1 : α) ≤ (N : α) := by exact_mod_cast hN
  have hN0 : (N : α) ≠ 0 := by intro h0; rw [h0] at h1; linarith
  have hnn : ¬ ((N : α) < 0) := by intro hlt; linarith
  rw [FP.run_with_eq E sample N start finish g x y g1 c hacc]
  simp [zero_divisor, FloatEnv.sqrt_dbl, hN0, hnn, hsqrt, hc]

/-- The double-precision replicate count when the environment computes the power and the
product exactly and the product is a value of `int`. -/
theorem FP.replicate_count_of_exact [FloorRing α] (E : FloatEnv α) (oor : Int)
    (base j : Nat) (hpow : E.rnd ((10 : α) ^ j) = (10 : α) ^ j)
    (hprod : E.rnd ((base : α) * (10 : α) ^ j) = (base : α) * (10 : α) ^ j)
    (h : ((base * 10 ^ j : Nat) : Int) ≤ INT_MAX) :
    FP.replicate_count_of E oor base (j : Int) = ((base * 10 ^ j : Nat) : Int) := by
  unfold FP.replicate_count_of double_to_int
  have e1 : ((REPLICATE_MULTIPLIER_PER_SIMULATION_RUN : Nat) : α) ^ ((j : Nat) : Int)
      = (10 : α) ^ j := by
    simp [REPLICATE_MULTIPLIER_PER_SIMULATION_RUN]
  rw [e1, hpow, hprod]
  have e2 : (base : α) * (10 : α) ^ j = ((base * 10 ^ j : Nat) : α) := by push_cast; ring
  rw [e2]
  have h0 : (0 : α) ≤ ((base * 10 ^ j : Nat) : α) := Nat.cast_nonneg _
  simp only [h0, if_true, Int.floor_natCast]
  have hmin : INT_MIN ≤ ((base * 10 ^ j : Nat) : Int) := by
    have : (0 : Int) ≤ ((base * 10 ^ j : Nat) : Int) := Int.natCast_nonneg _
    unfold INT_MIN; omega
  rw [if_pos ⟨hmin, h⟩]

/-- The printed replicate count of a double-precision run. -/
theorem FP.run_with_replicate_count (E : FloatEnv α)
    (sample : RandomEngine α → α × RandomEngine α) (N : Int) (start finish : α)
    (g : RandomEngine α) : (FP.run_with E sample N start finish g).row.replicate_count = N := by
  rcases hacc : FP.accumulate E sample N g with ⟨x, y, g1, c⟩
  rw [FP.run_with_eq E sample N start finish g x y g1 c hacc]
  rfl

/-- A double-precision run for a sampling function, a base and an index `j` such that the
environment computes `10^j` and `base * 10^j` exactly, `base * 10^j` is a positive value
of `int` and its square root is not zero: the replicate count is `base * 10^j` and the run
performs no division by zero. -/
theorem FP.run_with_divisors [FloorRing α] (E : FloatEnv α)
    (sample : RandomEngine α → α × RandomEngine α) (oor : Int) (base j : Nat)
    (start finish : α) (g : RandomEngine α)
    (hpow : E.rnd ((10 : α) ^ j) = (10 : α) ^ j)
    (hprod : E.rnd ((base : α) * (10 : α) ^ j) = (base : α) * (10 : α) ^ j)
    (hsqrt : E.sqrt ((base : α) * (10 : α) ^ j) ≠ 0)
    (hpos : 1 ≤ base * 10 ^ j) (hmax : ((base * 10 ^ j : Nat) : Int) ≤ INT_MAX) :
    1 ≤ (FP.run_with E sample (FP.replicate_count_of E oor base (j : Int)) start finish
          g).row.replicate_count
    ∧ (FP.run_with E sample (FP.replicate_count_of E oor base (j : Int)) start finish
          g).zero_divisions = 0 := by
  have hN : (1 : Int) ≤ ((base * 10 ^ j : Nat) : Int) := by exact_mod_cast hpos
  rw [FP.replicate_count_of_exact E oor base j hpow hprod hmax]
  refine ⟨?_, FP.run_with_zero_divisions E sample _ hN ?_ start finish g⟩
  · rw [FP.run_with_replicate_count]
    exact hN
  · have e : (((base * 10 ^ j : Nat) : Int) : α) = (base : α) * (10 : α) ^ j := by
      push_cast; ring
    rw [e]
    exact hsqrt

/-! ## Two direct runs of index 0 in IEEE 754 double precision

The run whose draws are all `1` (1000 equal samples) is evaluated in nine blocks of 111
iterations of the loop; the run whose draws are all `0` has all samples and both running
means equal to zero. -/

/-- The direct sample for the draw `1` in IEEE double precision: `75.4269667946657...`. -/
theorem FP.direct_sample_at_one (p : Nat) :
    FP.simulate_new_bma_price_direct binary64 ⟨fun _ => 1, p⟩
      = (331731308154437 / 4398046511104, ⟨fun _ => 1, p + 1⟩) := by
  have h : (FP.simulate_new_bma_price_direct binary64 ⟨fun _ => 1, 0⟩).1
      = 331731308154437 / 4398046511104 := by decide!
  exact Prod.ext h rfl

/-- The direct sample for the draw `0` in IEEE double precision: the terminal price is
below the strike and the sample is `0`. -/
theorem FP.direct_sample_at_zero (p : Nat) :
    FP.simulate_new_bma_price_direct binary64 ⟨fun _ => 0, p⟩
      = (0, ⟨fun _ => 0, p + 1⟩) := by
  have h : (FP.simulate_new_bma_price_direct binary64 ⟨fun _ => 0, 0⟩).1 = 0 := by decide!
  exact Prod.ext h rfl

/-- Every sample of a run is `v` when the sampling function returns `v` on every engine
with the draws `D`. -/
theorem sample_sequence_const {β : Type} (sample : RandomEngine β → β × RandomEngine β)
    (v : β) (D : Nat → β) (h : ∀ p, sample ⟨D, p⟩ = (v, ⟨D, p + 1⟩)) (n : Nat) :
    ∀ p, ∀ w ∈ sample_sequence sample n ⟨D, p⟩, w = v := by
  induction n with
  | zero => intro p w hw; simp [sample_sequence] at hw
  | succ n ih =>
    intro p w hw
    simp only [sample_sequence, h, List.mem_cons] at hw
    rcases hw with hw | hw
    · exact hw
    · exact ih _ w hw

/-- The engine after `n` calls of the constant sampling function. -/
theorem engine_after_const {β : Type} (v : β) (n : Nat) :
    ∀ g : RandomEngine β,
    engine_after (fun g => (v, (⟨g.draws, g.position + 1⟩ : RandomEngine β))) n g
      = ⟨g.draws, g.position + n⟩ := by
  induction n with
  | zero => intro g; rfl
  | succ n ih =>
    intro g
    simp only [engine_after]
    rw [ih]
    simp only [Nat.add_assoc, Nat.add_comm 1 n]

/-- Iterations `k = 2..112` of the loop on equal samples, in IEEE double precision. -/
theorem FP.equal_samples_block_0 :
    (FP.accumulation_loop binary64
      (fun g => ((331731308154437 / 4398046511104 : ℚ), (⟨g.draws, g.position + 1⟩ : RandomEngine ℚ))) 111 2
      (Dbl.fin (331731308154437 / 4398046511104), Dbl.fin (6255371591228939 / 1099511627776),
        ⟨fun _ => 1, 1⟩, 0))
      = (Dbl.fin (5307700930470993 / 70368744177664), Dbl.fin (390960724451809 / 68719476736),
          ⟨fun _ => 1, 112⟩, 0) := by
  apply FP.state_ext
  · decide!
  · decide!
  · rw [(FP.accumulation_loop_engine_count binary64 _ 111 2 _ _ _ 0 (by norm_num)).1,
      engine_after_const]
  · exact (FP.accumulation_loop_engine_count binary64 _ 111 2 _ _ _ 0 (by norm_num)).2

/-- Iterations `k = 113..223` of the loop on equal samples, in IEEE double precision. -/
theorem FP.equal_samples_block_1 :
    (FP.accumulation_loop binary64
      (fun g => ((331731308154437 / 4398046511104 : ℚ), (⟨g.draws, g.position + 1⟩ : RandomEngine ℚ))) 111 113
      (Dbl.fin (5307700930470993 / 70368744177664), Dbl.fin (390960724451809 / 68719476736),
        ⟨fun _ => 1, 112⟩, 0))
      = (Dbl.fin (5307700930470991 / 70368744177664), Dbl.fin (1563842897807235 / 274877906944),
          ⟨fun _ => 1, 223⟩, 0) := by
  apply FP.state_ext
  · decide!
  · decide!
  · rw [(FP.accumulation_loop_engine_count binary64 _ 111 113 _ _ _ 0 (by norm_num)).1,
      engine_after_const]
  · exact (FP.accumulation_loop_engine_count binary64 _ 111 113 _ _ _ 0 (by norm_num)).2

/-- Iterations `k = 224..334` of the loop on equal samples, in IEEE double precision. -/
theorem FP.equal_samples_block_2 :
    (FP.accumulation_loop binary64
      (fun g => ((331731308154437 / 4398046511104 : ℚ), (⟨g.draws, g.position + 1⟩ : RandomEngine ℚ))) 111 224
      (Dbl.fin (5307700930470991 / 70368744177664), Dbl.fin (1563842897807235 / 274877906944),
        ⟨fun _ => 1, 223⟩, 0))
      = (Dbl.fin (5307700930470985 / 70368744177664), Dbl.fin (3127685795614471 / 549755813888),
          ⟨fun _ => 1, 334⟩, 0) := by
  apply FP.state_ext
  · decide!
  · decide!
  · rw [(FP.accumulation_loop_engine_count binary64 _ 111 224 _ _ _ 0 (by norm_num)).1,
      engine_after_const]
  · exact (FP.accumulation_loop_engine_count binary64 _ 111 224 _ _ _ 0 (by norm_num)).2

/-- Iterations `k = 335..445` of the loop on equal samples, in IEEE double precision. -/
theorem FP.equal_samples_block_3 :
    (FP.accumulation_loop binary64
      (fun g => ((331731308154437 / 4398046511104 : ℚ), (⟨g.draws, g.position + 1⟩ : RandomEngine ℚ))) 111 335
      (Dbl.fin (5307700930470985 / 70368744177664), Dbl.fin (3127685795614471 / 549755813888),
        ⟨fun _ => 1, 334⟩, 0))
      = (Dbl.fin (1326925232617747 / 17592186044416), Dbl.fin (1563842897807235 / 274877906944),
          ⟨fun _ => 1, 445⟩, 0) := by
  apply FP.state_ext
  · decide!
  · decide!
  · rw [(FP.accumulation_loop_engine_count binary64 _ 111 335 _ _ _ 0 (by norm_num)).1,
      engine_after_const]
  · exact (FP.accumulation_loop_engine_count binary64 _ 111 335 _ _ _ 0 (by norm_num)).2

/-- Iterations `k = 446..556` of the loop on equal samples, in IEEE double precision. -/
theorem FP.equal_samples_block_4 :
    (FP.accumulation_loop binary64
      (fun g => ((331731308154437 / 4398046511104 : ℚ), (⟨g.draws, g.position + 1⟩ : RandomEngine ℚ))) 111 446
      (Dbl.fin (1326925232617747 / 17592186044416), Dbl.fin (1563842897807235 / 274877906944),
        ⟨fun _ => 1, 445⟩, 0))
      = (Dbl.fin (5307700930470989 / 70368744177664), Dbl.fin (6255371591228933 / 1099511627776),
          ⟨fun _ => 1, 556⟩, 0) := by
  apply FP.state_ext
  · decide!
  · decide!
  · rw [(FP.accumulation_loop_engine_count binary64 _ 111 446 _ _ _ 0 (by norm_num)).1,
      engine_after_const]
  · exact (FP.accumulation_loop_engine_count binary64 _ 111 446 _ _ _ 0 (by norm_num)).2

/-- Iterations `k = 557..667` of the loop on equal samples, in IEEE double precision. -/
theorem FP.equal_samples_block_5 :
    (FP.accumulation_loop binary64
      (fun g => ((331731308154437 / 4398046511104 : ℚ), (⟨g.draws, g.position + 1⟩ : RandomEngine ℚ))) 111 557
      (Dbl.fin (5307700930470989 / 70368744177664), Dbl.fin (6255371591228933 / 1099511627776),
        ⟨fun _ => 1, 556⟩, 0))
      = (Dbl.fin (5307700930470991 / 70368744177664), Dbl.fin (6255371591228933 / 1099511627776),
          ⟨fun _ => 1, 667⟩, 0) := by
  apply FP.state_ext
  · decide!
  · decide!
  · rw [(FP.accumulation_loop_engine_count binary64 _ 111 557 _ _ _ 0 (by norm_num)).1,
      engine_after_const]
  · exact (FP.accumulation_loop_engine_count binary64 _ 111 557 _ _ _ 0 (by norm_num)).2

/-- Iterations `k = 668..778` of the loop on equal samples, in IEEE double precision. -/
theorem FP.equal_samples_block_6 :
    (FP.accumulation_loop binary64
      (fun g => ((331731308154437 / 4398046511104 : ℚ), (⟨g.draws, g.position + 1⟩ : RandomEngine ℚ))) 111 668
      (Dbl.fin (5307700930470991 / 70368744177664), Dbl.fin (6255371591228933 / 1099511627776),
        ⟨fun _ => 1, 667⟩, 0))
      = (Dbl.fin (2653850465235497 / 35184372088832), Dbl.fin (6255371591228935 / 1099511627776),
          ⟨fun _ => 1, 778⟩, 0) := by
  apply FP.state_ext
  · decide!
  · decide!
  · rw [(FP.accumulation_loop_engine_count binary64 _ 111 668 _ _ _ 0 (by norm_num)).1,
      engine_after_const]
  · exact (FP.accumulation_loop_engine_count binary64 _ 111 668 _ _ _ 0 (by norm_num)).2

/-- Iterations `k = 779..889` of the loop on equal samples, in IEEE double precision. -/
theorem FP.equal_samples_block_7 :
    (FP.accumulation_loop binary64
      (fun g => ((331731308154437 / 4398046511104 : ℚ), (⟨g.draws, g.position + 1⟩ : RandomEngine ℚ))) 111 779
      (Dbl.fin (2653850465235497 / 35184372088832), Dbl.fin (6255371591228935 / 1099511627776),
        ⟨fun _ => 1, 778⟩, 0))
      = (Dbl.fin (5307700930470995 / 70368744177664), Dbl.fin (781921448903617 / 137438953472),
          ⟨fun _ => 1, 889⟩, 0) := by
  apply FP.state_ext
  · decide!
  · decide!
  · rw [(FP.accumulation_loop_engine_count binary64 _ 111 779 _ _ _ 0 (by norm_num)).1,
      engine_after_const]
  · exact (FP.accumulation_loop_engine_count binary64 _ 111 779 _ _ _ 0 (by norm_num)).2

/-- Iterations `k = 890..1000` of the loop on equal samples, in IEEE double precision. -/
theorem FP.equal_samples_block_8 :
    (FP.accumulation_loop binary64
      (fun g => ((331731308154437 / 4398046511104 : ℚ), (⟨g.draws, g.position + 1⟩ : RandomEngine ℚ))) 111 890
      (Dbl.fin (5307700930470995 / 70368744177664), Dbl.fin (781921448903617 / 137438953472),
        ⟨fun _ => 1, 889⟩, 0))
      = (Dbl.fin (2653850465235497 / 35184372088832), Dbl.fin (6255371591228941 / 1099511627776),
          ⟨fun _ => 1, 1000⟩, 0) := by
  apply FP.state_ext
  · decide!
  · decide!
  · rw [(FP.accumulation_loop_engine_count binary64 _ 111 890 _ _ _ 0 (by norm_num)).1,
      engine_after_const]
  · exact (FP.accumulation_loop_engine_count binary64 _ 111 890 _ _ _ 0 (by norm_num)).2

/-- The 999 iterations `k = 2..1000` of the loop on equal samples, in IEEE double
precision: the running mean ends above the samples. -/
theorem FP.equal_samples_loop :
    FP.accumulation_loop binary64
      (fun g => ((331731308154437 / 4398046511104 : ℚ), (⟨g.draws, g.position + 1⟩ : RandomEngine ℚ))) 999 2
      (Dbl.fin (331731308154437 / 4398046511104), Dbl.fin (6255371591228939 / 1099511627776),
        ⟨fun _ => 1, 1⟩, 0)
      = (Dbl.fin (2653850465235497 / 35184372088832), Dbl.fin (6255371591228941 / 1099511627776),
          ⟨fun _ => 1, 1000⟩, 0) := by
  have e : (999 : Nat) = 111 + (111 + (111 + (111 + (111 + (111 + (111 + (111 + 111))))))) :=
    rfl
  rw [e, FP.rounded_loop_add, FP.equal_samples_block_0]
  rw [show ((2 : Int) + ((111 : Nat) : Int)) = 113 from rfl, FP.rounded_loop_add,
    FP.equal_samples_block_1]
  rw [show ((113 : Int) + ((111 : Nat) : Int)) = 224 from rfl, FP.rounded_loop_add,
    FP.equal_samples_block_2]
  rw [show ((224 : Int) + ((111 : Nat) : Int)) = 335 from rfl, FP.rounded_loop_add,
    FP.equal_samples_block_3]
  rw [show ((335 : Int) + ((111 : Nat) : Int)) = 446 from rfl, FP.rounded_loop_add,
    FP.equal_samples_block_4]
  rw [show ((446 : Int) + ((111 : Nat) : Int)) = 557 from rfl, FP.rounded_loop_add,
    FP.equal_samples_block_5]
  rw [show ((557 : Int) + ((111 : Nat) : Int)) = 668 from rfl, FP.rounded_loop_add,
    FP.equal_samples_block_6]
  rw [show ((668 : Int) + ((111 : Nat) : Int)) = 779 from rfl, FP.rounded_loop_add,
    FP.equal_samples_block_7]
  rw [show ((779 : Int) + ((111 : Nat) : Int)) = 890 from rfl]
  exact FP.equal_samples_block_8

/-- The accumulation of the direct run of 1000 replicates whose draws are all `1`, in IEEE
double precision. -/
theorem FP.accumulate_equal_samples :
    FP.accumulate binary64 (FP.simulate_new_bma_price_direct binary64) 1000
        ⟨fun _ => 1, 0⟩
      = (Dbl.fin (2653850465235497 / 35184372088832),
          Dbl.fin (6255371591228941 / 1099511627776), ⟨fun _ => 1, 1000⟩, 0) := by
  have hsq : binary64.mul (Dbl.fin (331731308154437 / 4398046511104))
      (Dbl.fin (331731308154437 / 4398046511104))
        = Dbl.fin (6255371591228939 / 1099511627776) := by decide!
  unfold FP.accumulate
  rw [FP.direct_sample_at_one 0]
  simp only
  rw [hsq, show ((1000 : Int) - 1).toNat = 999 from rfl,
    FP.accumulation_loop_const binary64 _ (331731308154437 / 4398046511104) (fun _ => 1)
      FP.direct_sample_at_one]
  exact FP.equal_samples_loop

/-- On samples that are all zero the double-precision loop keeps both running means at
zero, whatever the rounding, as long as zero rounds to zero. -/
theorem FP.accumulation_loop_zero (E : FloatEnv α) (h0 : E.rnd 0 = 0)
    (sample : RandomEngine α → α × RandomEngine α) (D : Nat → α)
    (h : ∀ p, sample ⟨D, p⟩ = (0, ⟨D, p + 1⟩)) (n : Nat) :
    ∀ (k : Int) (p c : Nat), 1 ≤ k →
    FP.accumulation_loop E sample n k (Dbl.fin 0, Dbl.fin 0, ⟨D, p⟩, c)
      = (Dbl.fin 0, Dbl.fin 0, ⟨D, p + n⟩, c) := by
  induction n with
  | zero => intro k p c _; rfl
  | succ n ih =>
    intro k p c hk
    have hk0 : (k : α) ≠ 0 := by
      have : (1 : α) ≤ (k : α) := by exact_mod_cast hk
      intro h0; rw [h0] at this; linarith
    have hz : zero_divisor (Dbl.fin (k : α)) = 0 := by simp [zero_divisor, hk0]
    simp only [FP.accumulation_loop, h, hz, Nat.mul_zero, Nat.add_zero, Dbl.one_eq_fin,
      FloatEnv.div, FloatEnv.sub, FloatEnv.mul, FloatEnv.add, hk0, if_false, mul_zero,
      add_zero, h0]
    rw [ih (k + 1) (p + 1) c (by omega)]
    simp only [Nat.add_assoc, Nat.add_comm 1 n]

/-- The accumulation of the direct run of 1000 replicates whose draws are all `0`, in IEEE
double precision. -/
theorem FP.accumulate_zero_samples :
    FP.accumulate binary64 (FP.simulate_new_bma_price_direct binary64) 1000
        ⟨fun _ => 0, 0⟩
      = (Dbl.fin 0, Dbl.fin 0, ⟨fun _ => 0, 1000⟩, 0) := by
  have h0 : binary64.rnd 0 = 0 := by decide!
  have hsq : binary64.mul (Dbl.fin 0) (Dbl.fin 0) = Dbl.fin 0 := by decide!
  unfold FP.accumulate
  rw [FP.direct_sample_at_zero 0]
  simp only
  rw [hsq, show ((1000 : Int) - 1).toNat = 999 from rfl,
    FP.accumulation_loop_zero binary64 h0 _ (fun _ => 0) FP.direct_sample_at_zero 999 2 _ 0
      (by norm_num)]

/-- The replicate count of the direct run of index 0 in IEEE double precision. -/
theorem FP.direct_replicate_count_zero (oor : Int) :
    FP.replicate_count_of binary64 oor BASE_NUMBER_OF_REPLICATES_PER_DIRECT_SIMULATION 0
      = 1000 := by
  have h := FP.replicate_count_of_exact binary64 oor
    BASE_NUMBER_OF_REPLICATES_PER_DIRECT_SIMULATION 0 (by decide!) (by decide!) (by decide)
  simpa [BASE_NUMBER_OF_REPLICATES_PER_DIRECT_SIMULATION] using h

/-- The printed row of the direct run of index 0 whose draws are all `1`, in IEEE double
precision. -/
theorem FP.run_equal_samples_row (oor : Int) (start finish : ℚ) :
    (FP.run_direct_simulation binary64 oor start finish 0 ⟨fun _ => 1, 0⟩).row
      = FP.print_simulation_results binary64 1000
          (Dbl.fin (2653850465235497 / 35184372088832))
          (FP.standard_error binary64 1000 (Dbl.fin (2653850465235497 / 35184372088832))
            (Dbl.fin (6255371591228941 / 1099511627776)))
          (FP.confidence_interval_lower binary64 1000
            (Dbl.fin (2653850465235497 / 35184372088832)))
          (FP.confidence_interval_upper binary64 1000
            (Dbl.fin (2653850465235497 / 35184372088832)))
          (binary64.rnd (finish - start)) := by
  unfold FP.run_direct_simulation
  rw [FP.direct_replicate_count_zero,
    FP.run_with_eq binary64 _ 1000 start finish _ _ _ _ _ FP.accumulate_equal_samples]

/-- The printed row of the direct run of index 0 whose draws are all `0`, in IEEE double
precision. -/
theorem FP.run_zero_samples_row (oor : Int) (start finish : ℚ) :
    (FP.run_direct_simulation binary64 oor start finish 0 ⟨fun _ => 0, 0⟩).row
      = FP.print_simulation_results binary64 1000 (Dbl.fin 0)
          (FP.standard_error binary64 1000 (Dbl.fin 0) (Dbl.fin 0))
          (FP.confidence_interval_lower binary64 1000 (Dbl.fin 0))
          (FP.confidence_interval_upper binary64 1000 (Dbl.fin 0))
          (binary64.rnd (finish - start)) := by
  unfold FP.run_direct_simulation
  rw [FP.direct_replicate_count_zero,
    FP.run_with_eq binary64 _ 1000 start finish _ _ _ _ _ FP.accumulate_zero_samples]

/-- The confidence bounds around the mean `75.4269667946657...` for 1000 replicates, in
IEEE double precision. -/
theorem FP.confidence_interval_equal_samples :
    FP.confidence_interval_lower binary64 1000 (Dbl.fin (2653850465235497 / 35184372088832))
      = Dbl.fin (2653200819817845 / 35184372088832)
    ∧ FP.confidence_interval_upper binary64 1000
        (Dbl.fin (2653850465235497 / 35184372088832))
      = Dbl.fin (2654500110653149 / 35184372088832) := by
  constructor <;> decide!

/-- The confidence bounds around the mean `0` for 1000 replicates, in IEEE double
precision. -/
theorem FP.confidence_interval_zero_samples :
    FP.confidence_interval_lower binary64 1000 (Dbl.fin 0)
      = Dbl.fin (-5321895261404879 / 288230376151711744)
    ∧ FP.confidence_interval_upper binary64 1000 (Dbl.fin 0)
      = Dbl.fin (5321895261404879 / 288230376151711744) := by
  constructor <;> decide!

end Lemmas

/-! ## Properties -/

section Properties

variable {α : Type} [LinearOrderedField α]

/-- C1: for every replicate count `N ≥ 1` and every sampling function (hence every
sequence of samples `x_1..x_N`), the accumulation of lines 116-123 and 136-143 ends with
`x_bar` equal to the whole-sequence mean `(1/N) * sum x_i` and `y_bar` equal to the
whole-sequence second moment `(1/N) * sum x_i^2`, both finite, having called the sampling
function `N` times. -/
theorem accumulate_eq_whole_sequence (sample : RandomEngine α → α × RandomEngine α)
    (N : Int) (hN : 1 ≤ N) (g : RandomEngine α) :
    accumulate sample N g
      = (Dbl.fin (whole_sequence_mean (sample_sequence sample N.toNat g)),
         Dbl.fin (whole_sequence_second_moment (sample_sequence sample N.toNat g)),
         engine_after sample N.toNat g) := by
  obtain ⟨n, rfl⟩ : ∃ n : Nat, N = (n : Int) + 1 :=
    ⟨(N - 1).toNat, by omega⟩
  have h := accumulation_loop_closed_form sample n 1 le_rfl (sample g).1
    ((sample g).1 * (sample g).1) (sample g).2
  have e : ((n : Int) + 1 - 1).toNat = n := by omega
  have e2 : ((n : Int) + 1).toNat = n + 1 := by omega
  simp only [accumulate, Dbl.fin_mul_fin, e, e2]
  simp only [Nat.cast_one, div_one] at h
  rw [show ((1 : Int) + 1) = 2 by norm_num] at h
  rw [h]
  simp only [whole_sequence_mean, whole_sequence_second_moment, sample_sequence,
    engine_after, List.sum_cons, List.map_cons, List.length_cons, sample_sequence_length]
  have e3 : ((1 + n : Nat) : α) = ((n + 1 : Nat) : α) := by rw [Nat.add_comm]
  rw [e3]
  congr 2
  · ring
  · congr 1
    ring

/-- Witness of C1: three samples 1, 2, 3 read from the engine. -/
theorem accumulate_eq_whole_sequence_witness :
    (1 : Int) ≤ 3 ∧
    accumulate generate_next_random_number 3 (⟨fun n => (n : ℚ) + 1, 0⟩ : RandomEngine ℚ)
      = (Dbl.fin (whole_sequence_mean
            (sample_sequence generate_next_random_number (3 : Int).toNat
              (⟨fun n => (n : ℚ) + 1, 0⟩ : RandomEngine ℚ))),
         Dbl.fin (whole_sequence_second_moment
            (sample_sequence generate_next_random_number (3 : Int).toNat
              (⟨fun n => (n : ℚ) + 1, 0⟩ : RandomEngine ℚ))),
         engine_after generate_next_random_number (3 : Int).toNat
            (⟨fun n => (n : ℚ) + 1, 0⟩ : RandomEngine ℚ)) :=
  ⟨by decide, accumulate_eq_whole_sequence _ 3 (by decide) _⟩

/-- C3: for every draw `z` (the next draw of the engine), the sample returned by
`simulate_new_bma_price_direct` equals `exp(-r*T) * max(S - K, 0)` with
`S = S0 * exp((r - q - 0.5*sigma^2)*T + sigma*sqrt(T)*z)`, and the factored form
`bma_deterministic_part * exp(bma_stocastic_part_coefficient * z)` of the code is that
terminal price `S` (exact real arithmetic). -/
theorem simulate_new_bma_price_direct_eq_spec (g : RandomEngine ℝ) :
    (simulate_new_bma_price_direct Real.exp Real.sqrt g).1
      = Real.exp (-(RISK_FREE_RATE ℝ) * TIME_TO_MATURITY ℝ)
          * max (STARTING_PRICE ℝ * Real.exp
              ((RISK_FREE_RATE ℝ - EXPECTED_DIVIDEND_YIELD ℝ - 0.5 * VOLATILITY ℝ ^ 2)
                  * TIME_TO_MATURITY ℝ
                + VOLATILITY ℝ * Real.sqrt (TIME_TO_MATURITY ℝ) * g.draws g.position)
              - STRIKE_PRICE ℝ) 0
    ∧ bma_deterministic_part Real.exp
          * Real.exp (bma_stocastic_part_coefficient Real.sqrt * g.draws g.position)
        = spec_terminal_price Real.exp Real.sqrt (g.draws g.position) :=
  ⟨direct_sample_eq_spec g, factored_price_eq_spec _⟩

/-- C2: for every draw `z` (the next draw of the engine), the sample returned by
`simulate_new_bma_price_antithetic` equals `0.5 * discount * (payoff(z) + payoff(-z))`
with `discount = exp(-r*T)`, `payoff(u) = max(S(u) - K, 0)` and
`S(u) = S0 * exp((r - q - 0.5*sigma^2)*T + sigma*sqrt(T)*u)`; it is the average of the
samples `simulate_new_bma_price_direct` returns for `z` and for `-z` (exact real
arithmetic). -/
theorem simulate_new_bma_price_antithetic_eq_spec (g : RandomEngine ℝ) :
    (simulate_new_bma_price_antithetic Real.exp Real.sqrt g).1
      = 0.5 * spec_discount Real.exp
          * (spec_payoff Real.exp Real.sqrt (g.draws g.position)
              + spec_payoff Real.exp Real.sqrt (-(g.draws g.position)))
    ∧ (simulate_new_bma_price_antithetic Real.exp Real.sqrt g).1
        = ((simulate_new_bma_price_direct Real.exp Real.sqrt g).1
            + (simulate_new_bma_price_direct Real.exp Real.sqrt (negated_engine g)).1) / 2 := by
  refine ⟨antithetic_sample_eq_spec g, ?_⟩
  rw [antithetic_sample_eq_spec, direct_sample_eq_spec, direct_sample_eq_spec]
  simp only [spec_antithetic_sample, spec_direct_sample, negated_engine]
  ring

/-- C4: accumulator invariant. For every replicate count `N ≥ 1`, every sampling function
and every `n` with `1 ≤ n ≤ N`, the state of the accumulation after its `n`-th update (the
state from which the loop performs its remaining `N - n` iterations) is finite and its
running second moment `y_bar` is at least the square of its running mean `x_bar`. -/
theorem accumulate_variance_nonneg (sample : RandomEngine α → α × RandomEngine α)
    (N n : Int) (hn : 1 ≤ n) (hnN : n ≤ N) (g : RandomEngine α) :
    ∃ (x_bar y_bar : α) (g1 : RandomEngine α),
      accumulate sample n g = (Dbl.fin x_bar, Dbl.fin y_bar, g1)
      ∧ accumulate sample N g
          = accumulation_loop sample (N - n).toNat (n + 1) (Dbl.fin x_bar, Dbl.fin y_bar, g1)
      ∧ x_bar * x_bar ≤ y_bar := by
  obtain ⟨x1, y1, g1, h1, h2⟩ := accumulation_loop_invariant sample (n - 1).toNat 2 le_rfl
    (sample g).1 ((sample g).1 * (sample g).1) (sample g).2 le_rfl
  refine ⟨x1, y1, g1, ?_, ?_, h2⟩
  · simp only [accumulate, Dbl.fin_mul_fin]
    exact h1
  · simp only [accumulate, Dbl.fin_mul_fin]
    have e : (N - 1).toNat = (n - 1).toNat + (N - n).toNat := by omega
    rw [e, accumulation_loop_add, h1]
    have e2 : (2 : Int) + ((n - 1).toNat : Int) = n + 1 := by omega
    rw [e2]

/-- Witness of C4: the state after the second of three samples 1, 2, 3. -/
theorem accumulate_variance_nonneg_witness :
    (1 : Int) ≤ 2 ∧ (2 : Int) ≤ 3 ∧
    ∃ (x_bar y_bar : ℚ) (g1 : RandomEngine ℚ),
      accumulate generate_next_random_number 2 (⟨fun n => (n : ℚ) + 1, 0⟩ : RandomEngine ℚ)
        = (Dbl.fin x_bar, Dbl.fin y_bar, g1)
      ∧ accumulate generate_next_random_number 3 (⟨fun n => (n : ℚ) + 1, 0⟩ : RandomEngine ℚ)
          = accumulation_loop generate_next_random_number ((3 : Int) - 2).toNat (2 + 1)
              (Dbl.fin x_bar, Dbl.fin y_bar, g1)
      ∧ x_bar * x_bar ≤ y_bar :=
  ⟨by decide, by decide, accumulate_variance_nonneg _ 3 2 (by decide) (by decide) _⟩

/-- C5: for every run index `i` of the sweeps (`0 ≤ i < 6` direct, base 1000; `0 ≤ i < 5`
antithetic, base 4000) the `replicate_count` of the run, computed through the
double-valued `pow` and the conversion to `int`, is exactly `base * 10^i`; and the rows
the two sweeps of `main` print carry exactly these counts, in this order. -/
theorem sweep_replicate_count_exact [FloorRing α] (exp sqrt : α → α) (oor : Int)
    (start finish : α) (clock : Int → α × α) (i : Int) (h0 : 0 ≤ i) (g : RandomEngine α) :
    (i < NUMBER_OF_DIRECT_SIMULATION_RUNS →
      (run_direct_simulation exp sqrt oor start finish i g).1.replicate_count
        = BASE_NUMBER_OF_REPLICATES_PER_DIRECT_SIMULATION * 10 ^ i.toNat)
    ∧ (i < NUMBER_OF_ANTITHETIC_SIMULATION_RUNS →
      (run_antithetic_simulation exp sqrt oor start finish i g).1.replicate_count
        = BASE_NUMBER_OF_REPLICATES_PER_ANTITHETIC_SIMULATION * 10 ^ i.toNat)
    ∧ (direct_sweep exp sqrt oor clock NUMBER_OF_DIRECT_SIMULATION_RUNS 0 g).1.map
        ReportRow.replicate_count
        = [1000, 10000, 100000, 1000000, 10000000, 100000000]
    ∧ (antithetic_sweep exp sqrt oor clock NUMBER_OF_ANTITHETIC_SIMULATION_RUNS 0 g).1.map
        ReportRow.replicate_count
        = [4000, 40000, 400000, 4000000, 40000000] := by
  have hd : ∀ j : Nat, j < 6 → replicate_count_of (α := α) oor
      BASE_NUMBER_OF_REPLICATES_PER_DIRECT_SIMULATION (j : Int)
        = ((BASE_NUMBER_OF_REPLICATES_PER_DIRECT_SIMULATION * 10 ^ j : Nat) : Int) := by
    intro j hj
    apply replicate_count_of_fits
    unfold BASE_NUMBER_OF_REPLICATES_PER_DIRECT_SIMULATION INT_MAX
    interval_cases j <;> norm_num
  have ha : ∀ j : Nat, j < 5 → replicate_count_of (α := α) oor
      BASE_NUMBER_OF_REPLICATES_PER_ANTITHETIC_SIMULATION (j : Int)
        = ((BASE_NUMBER_OF_REPLICATES_PER_ANTITHETIC_SIMULATION * 10 ^ j : Nat) : Int) := by
    intro j hj
    apply replicate_count_of_fits
    unfold BASE_NUMBER_OF_REPLICATES_PER_ANTITHETIC_SIMULATION INT_MAX
    interval_cases j <;> norm_num
  obtain ⟨j, rfl⟩ : ∃ j : Nat, i = (j : Int) := ⟨i.toNat, by omega⟩
  refine ⟨?_, ?_, ?_, ?_⟩
  · intro hi
    have hj : j < 6 := by
      unfold NUMBER_OF_DIRECT_SIMULATION_RUNS at hi; omega
    rw [run_direct_simulation_replicate_count, hd j hj]
    simp
  · intro hi
    have hj : j < 5 := by
      unfold NUMBER_OF_ANTITHETIC_SIMULATION_RUNS at hi; omega
    rw [run_antithetic_simulation_replicate_count, ha j hj]
    simp
  · rw [direct_sweep_replicate_counts]
    have e0 := hd 0 (by norm_num)
    have e1 := hd 1 (by norm_num)
    have e2 := hd 2 (by norm_num)
    have e3 := hd 3 (by norm_num)
    have e4 := hd 4 (by norm_num)
    have e5 := hd 5 (by norm_num)
    simp only [Nat.cast_ofNat, Nat.cast_zero, Nat.cast_one] at e0 e1 e2 e3 e4 e5
    simp only [NUMBER_OF_DIRECT_SIMULATION_RUNS, sweep_indices, List.map_cons, List.map_nil]
    norm_num
    rw [e0, e1, e2, e3, e4, e5]
    simp [BASE_NUMBER_OF_REPLICATES_PER_DIRECT_SIMULATION]
  · rw [antithetic_sweep_replicate_counts]
    have e0 := ha 0 (by norm_num)
    have e1 := ha 1 (by norm_num)
    have e2 := ha 2 (by norm_num)
    have e3 := ha 3 (by norm_num)
    have e4 := ha 4 (by norm_num)
    simp only [Nat.cast_ofNat, Nat.cast_zero, Nat.cast_one] at e0 e1 e2 e3 e4
    simp only [NUMBER_OF_ANTITHETIC_SIMULATION_RUNS, sweep_indices, List.map_cons,
      List.map_nil]
    norm_num
    rw [e0, e1, e2, e3, e4]
    simp [BASE_NUMBER_OF_REPLICATES_PER_ANTITHETIC_SIMULATION]

/-- Witness of C5: run index 3 of both sweeps. -/
theorem sweep_replicate_count_exact_witness :
    (0 : Int) ≤ 3
    ∧ (run_direct_simulation Real.exp Real.sqrt INT_MIN 0 1 3
          (⟨fun _ => 0, 0⟩ : RandomEngine ℝ)).1.replicate_count
        = BASE_NUMBER_OF_REPLICATES_PER_DIRECT_SIMULATION * 10 ^ (3 : Int).toNat
    ∧ (run_antithetic_simulation Real.exp Real.sqrt INT_MIN 0 1 3
          (⟨fun _ => 0, 0⟩ : RandomEngine ℝ)).1.replicate_count
        = BASE_NUMBER_OF_REPLICATES_PER_ANTITHETIC_SIMULATION * 10 ^ (3 : Int).toNat :=
  ⟨by decide,
   (sweep_replicate_count_exact Real.exp Real.sqrt INT_MIN 0 1 (fun _ => (0, 1)) 3
      (by decide) ⟨fun _ => 0, 0⟩).1 (by decide),
   (sweep_replicate_count_exact Real.exp Real.sqrt INT_MIN 0 1 (fun _ => (0, 1)) 3
      (by decide) ⟨fun _ => 0, 0⟩).2.1 (by decide)⟩

/-- C6, amended: in exact real arithmetic, that is for the formulas of lines 125-126 and
145-146 without the rounding of a double operation, for every run of either strategy
whose `replicate_count` is at least 1, whatever the draws,
`confidence_interval_upper - confidence_interval_lower` of the row is the finite value
`2 * 1.96 * VOLATILITY / sqrt(replicate_count)`, which depends on the volatility and the
replicate count only. -/
theorem confidence_interval_width_exact (oor : Int) (start finish : ℝ) (i : Int)
    (g : RandomEngine ℝ) :
    (1 ≤ (run_direct_simulation Real.exp Real.sqrt oor start finish i g).1.replicate_count →
      (run_direct_simulation Real.exp Real.sqrt oor start finish i g).1.confidence_interval_upper
        - (run_direct_simulation Real.exp Real.sqrt oor start finish i
            g).1.confidence_interval_lower
        = Dbl.fin (2 * 1.96 * VOLATILITY ℝ / Real.sqrt
            ((run_direct_simulation Real.exp Real.sqrt oor start finish i
              g).1.replicate_count : ℝ)))
    ∧ (1 ≤ (run_antithetic_simulation Real.exp Real.sqrt oor start finish i
          g).1.replicate_count →
      (run_antithetic_simulation Real.exp Real.sqrt oor start finish i
          g).1.confidence_interval_upper
        - (run_antithetic_simulation Real.exp Real.sqrt oor start finish i
            g).1.confidence_interval_lower
        = Dbl.fin (2 * 1.96 * VOLATILITY ℝ / Real.sqrt
            ((run_antithetic_simulation Real.exp Real.sqrt oor start finish i
              g).1.replicate_count : ℝ))) := by
  constructor
  · obtain ⟨x, y, g1, hacc, _⟩ := accumulate_finite
      (simulate_new_bma_price_direct Real.exp Real.sqrt)
      (replicate_count_of (α := ℝ) oor BASE_NUMBER_OF_REPLICATES_PER_DIRECT_SIMULATION i) g
    rw [run_direct_simulation_eq Real.exp Real.sqrt oor start finish i g _ _ _ _ rfl hacc]
    intro hN
    exact confidence_interval_width _ hN x
  · obtain ⟨x, y, g1, hacc, _⟩ := accumulate_finite
      (simulate_new_bma_price_antithetic Real.exp Real.sqrt)
      (replicate_count_of (α := ℝ) oor BASE_NUMBER_OF_REPLICATES_PER_ANTITHETIC_SIMULATION i) g
    rw [run_antithetic_simulation_eq Real.exp Real.sqrt oor start finish i g _ _ _ _ rfl hacc]
    intro hN
    exact confidence_interval_width _ hN x

/-- Witness of C6 (amended): the first run of the direct sweep, 1000 replicates, all draws
equal to `1`. -/
theorem confidence_interval_width_exact_witness :
    1 ≤ (run_direct_simulation Real.exp Real.sqrt INT_MIN 0 1 0
          (⟨fun _ => 1, 0⟩ : RandomEngine ℝ)).1.replicate_count
    ∧ (run_direct_simulation Real.exp Real.sqrt INT_MIN 0 1 0
          (⟨fun _ => 1, 0⟩ : RandomEngine ℝ)).1.confidence_interval_upper
        - (run_direct_simulation Real.exp Real.sqrt INT_MIN 0 1 0
            (⟨fun _ => 1, 0⟩ : RandomEngine ℝ)).1.confidence_interval_lower
        = Dbl.fin (2 * 1.96 * VOLATILITY ℝ / Real.sqrt
            ((run_direct_simulation Real.exp Real.sqrt INT_MIN 0 1 0
              (⟨fun _ => 1, 0⟩ : RandomEngine ℝ)).1.replicate_count : ℝ)) :=
  have h : 1 ≤ (run_direct_simulation Real.exp Real.sqrt INT_MIN 0 1 0
      (⟨fun _ => 1, 0⟩ : RandomEngine ℝ)).1.replicate_count := by
    rw [run_direct_simulation_replicate_count,
      direct_replicate_count_in_sweep INT_MIN 0 le_rfl (by norm_num)]
    norm_num
  ⟨h, (confidence_interval_width_exact INT_MIN 0 1 0 ⟨fun _ => 1, 0⟩).1 h⟩

/-- C10: in IEEE 754 double precision, for every run index the sweeps pass (`0 ≤ i < 6`
direct, `0 ≤ i < 5` antithetic), whatever the draws and the clock readings,
`replicate_count ≥ 1` and the run performs no division by a zero divisor: the number of
zero divisors among those of the four divisions by `k` of every iteration
`k = 2..replicate_count`, of the division by `replicate_count` in the standard error and of
the two divisions by `sqrt(replicate_count)` in the confidence bounds is `0`. -/
theorem sweep_runs_divide_by_nonzero (oor : Int) (start finish : ℚ) (i : Int) (h0 : 0 ≤ i)
    (g : RandomEngine ℚ) :
    (i < NUMBER_OF_DIRECT_SIMULATION_RUNS →
      1 ≤ (FP.run_direct_simulation binary64 oor start finish i g).row.replicate_count
      ∧ (FP.run_direct_simulation binary64 oor start finish i g).zero_divisions = 0)
    ∧ (i < NUMBER_OF_ANTITHETIC_SIMULATION_RUNS →
      1 ≤ (FP.run_antithetic_simulation binary64 oor start finish i g).row.replicate_count
      ∧ (FP.run_antithetic_simulation binary64 oor start finish i g).zero_divisions = 0) := by
  obtain ⟨j, rfl⟩ := Int.eq_ofNat_of_zero_le h0
  constructor
  · intro hi
    have hj : j < 6 := by unfold NUMBER_OF_DIRECT_SIMULATION_RUNS at hi; omega
    unfold FP.run_direct_simulation BASE_NUMBER_OF_REPLICATES_PER_DIRECT_SIMULATION
    interval_cases j
    all_goals
      exact FP.run_with_divisors binary64 _ oor 1000 _ start finish g (by decide!)
        (by decide!) (by decide!) (by decide) (by decide)
  · intro hi
    have hj : j < 5 := by unfold NUMBER_OF_ANTITHETIC_SIMULATION_RUNS at hi; omega
    unfold FP.run_antithetic_simulation BASE_NUMBER_OF_REPLICATES_PER_ANTITHETIC_SIMULATION
    interval_cases j
    all_goals
      exact FP.run_with_divisors binary64 _ oor 4000 _ start finish g (by decide!)
        (by decide!) (by decide!) (by decide) (by decide)

/-- Witness of C10: run index 2 of both sweeps, all draws equal to `1`. -/
theorem sweep_runs_divide_by_nonzero_witness :
    (0 : Int) ≤ 2
    ∧ (1 ≤ (FP.run_direct_simulation binary64 INT_MIN 0 1 2
          ⟨fun _ => 1, 0⟩).row.replicate_count
      ∧ (FP.run_direct_simulation binary64 INT_MIN 0 1 2 ⟨fun _ => 1, 0⟩).zero_divisions = 0)
    ∧ (1 ≤ (FP.run_antithetic_simulation binary64 INT_MIN 0 1 2
          ⟨fun _ => 1, 0⟩).row.replicate_count
      ∧ (FP.run_antithetic_simulation binary64 INT_MIN 0 1 2
          ⟨fun _ => 1, 0⟩).zero_divisions = 0) :=
  ⟨by decide,
   (sweep_runs_divide_by_nonzero INT_MIN 0 1 2 (by decide) ⟨fun _ => 1, 0⟩).1 (by decide),
   (sweep_runs_divide_by_nonzero INT_MIN 0 1 2 (by decide) ⟨fun _ => 1, 0⟩).2 (by decide)⟩

/-- C8, counterexample: for the state `x_bar = 1`, `y_bar = 0` and `replicate_count = 1`
the variance `y_bar - x_bar^2` is `-1`; the standard error of line 124 is a
not-a-number, whereas the clamped formula `sqrt(max(y_bar - x_bar^2, 0) / N)` is finite. -/
theorem standard_error_not_clamped :
    standard_error Real.sqrt 1 (Dbl.fin (1 : ℝ)) (Dbl.fin 0) = Dbl.nonfinite
    ∧ standard_error Real.sqrt 1 (Dbl.fin (1 : ℝ)) (Dbl.fin 0)
        ≠ Dbl.fin (Real.sqrt (max ((0 : ℝ) - 1 * 1) 0 / ((1 : Int) : ℝ))) := by
  have h : standard_error Real.sqrt 1 (Dbl.fin (1 : ℝ)) (Dbl.fin 0) = Dbl.nonfinite := by
    rw [standard_error_fin _ _ (by norm_num)]
    exact Dbl.sqrt_fin_of_neg _ _ (by norm_num)
  refine ⟨h, ?_⟩
  rw [h]
  intro hc
  cases hc

/-- C8, amended: for every finite accumulator state `(x_bar, y_bar)` and replicate count
`N ≥ 1` the standard error of lines 124 and 144 is `sqrt((y_bar - x_bar^2) / N)` without a
clamp: when `y_bar - x_bar^2 ≥ 0` it is the finite value
`sqrt(max(y_bar - x_bar^2, 0) / N)`, and when `y_bar - x_bar^2 < 0` it is a not-a-number,
which `print_simulation_results` puts in the row unchanged. -/
theorem standard_error_unclamped (sqrt : α → α) (N : Int) (hN : 1 ≤ N) (x_bar y_bar : α)
    (ci_lower ci_upper : Dbl α) (t : α) :
    (0 ≤ y_bar - x_bar * x_bar →
      standard_error sqrt N (Dbl.fin x_bar) (Dbl.fin y_bar)
        = Dbl.fin (sqrt (max (y_bar - x_bar * x_bar) 0 / (N : α))))
    ∧ (y_bar - x_bar * x_bar < 0 →
      standard_error sqrt N (Dbl.fin x_bar) (Dbl.fin y_bar) = Dbl.nonfinite)
    ∧ (print_simulation_results N (Dbl.fin x_bar)
          (standard_error sqrt N (Dbl.fin x_bar) (Dbl.fin y_bar)) ci_lower ci_upper
          t).estimated_standard_error
        = standard_error sqrt N (Dbl.fin x_bar) (Dbl.fin y_bar) := by
  have h1 : (1 : α) ≤ (N : α) := by exact_mod_cast hN
  have hpos : (0 : α) < (N : α) := by linarith
  have hN0 : (N : α) ≠ 0 := ne_of_gt hpos
  refine ⟨?_, ?_, rfl⟩
  · intro hv
    have hnn : (0 : α) ≤ 1 / (N : α) * (y_bar - x_bar * x_bar) :=
      mul_nonneg (by positivity) hv
    rw [standard_error_fin _ _ hN0, Dbl.sqrt_fin_of_nonneg _ _ hnn, max_eq_left hv]
    congr 2
    field_simp
  · intro hv
    have hneg : 1 / (N : α) * (y_bar - x_bar * x_bar) < 0 :=
      mul_neg_of_pos_of_neg (by positivity) hv
    rw [standard_error_fin _ _ hN0, Dbl.sqrt_fin_of_neg _ _ hneg]

/-- Witness of C8 (amended): four replicates with mean 1 and second moment 2, and one
replicate with mean 1 and second moment 0. -/
theorem standard_error_unclamped_witness :
    (1 : Int) ≤ 4 ∧ (0 : ℝ) ≤ 2 - 1 * 1
    ∧ standard_error Real.sqrt 4 (Dbl.fin (1 : ℝ)) (Dbl.fin 2)
        = Dbl.fin (Real.sqrt (max ((2 : ℝ) - 1 * 1) 0 / ((4 : Int) : ℝ)))
    ∧ (1 : Int) ≤ 1 ∧ (0 : ℝ) - 1 * 1 < 0
    ∧ standard_error Real.sqrt 1 (Dbl.fin (1 : ℝ)) (Dbl.fin 0) = Dbl.nonfinite :=
  have hv : (0 : ℝ) ≤ 2 - 1 * 1 := by norm_num
  have hn : (0 : ℝ) - 1 * 1 < 0 := by norm_num
  ⟨by decide, hv,
   (standard_error_unclamped Real.sqrt 4 (by decide) 1 2 Dbl.nonfinite Dbl.nonfinite 0).1 hv,
   by decide, hn,
   (standard_error_unclamped Real.sqrt 1 (by decide) 1 0 Dbl.nonfinite Dbl.nonfinite
      0).2.1 hn⟩

/-- C9, counterexample: run index 7 of the direct strategy, where `1000 * 10^7` exceeds
`INT_MAX`, on a platform whose out-of-range conversion yields `INT_MIN`: the run prints a
row, and its replicate count is `INT_MIN`, not `1000 * 10^7`. -/
theorem replicate_count_overflow_not_rejected :
    (run_direct_simulation Real.exp Real.sqrt INT_MIN 0 1 7
        (⟨fun _ => 0, 0⟩ : RandomEngine ℝ)).1.replicate_count = -2147483648
    ∧ (run_direct_simulation Real.exp Real.sqrt INT_MIN 0 1 7
        (⟨fun _ => 0, 0⟩ : RandomEngine ℝ)).1.replicate_count ≠ 1000 * 10 ^ 7 := by
  have h : (run_direct_simulation Real.exp Real.sqrt INT_MIN 0 1 7
      (⟨fun _ => 0, 0⟩ : RandomEngine ℝ)).1.replicate_count = -2147483648 := by
    rw [run_direct_simulation_replicate_count]
    have e := replicate_count_of_overflow (α := ℝ) INT_MIN
      BASE_NUMBER_OF_REPLICATES_PER_DIRECT_SIMULATION 7
      (by norm_num [INT_MAX, BASE_NUMBER_OF_REPLICATES_PER_DIRECT_SIMULATION])
    simp only [Nat.cast_ofNat] at e
    rw [e]
    rfl
  refine ⟨h, ?_⟩
  rw [h]
  norm_num

/-- C9, amended: for every run index `i ≥ 0` for which `base * 10^i` exceeds `INT_MAX`
(`i ≥ 7` with base 1000, `i ≥ 6` with base 4000) the runs report no configuration error:
they accumulate and print a row with the replicate count `oor` that the out-of-range
conversion to `int` produces (an `int` below `INT_MAX`, so that the loop counter does not
overflow), and this count differs from `base * 10^i`. -/
theorem replicate_count_out_of_range [FloorRing α] (exp sqrt : α → α) (oor : Int)
    (hoor : oor < INT_MAX) (start finish : α) (i : Int) (h0 : 0 ≤ i) (g : RandomEngine α) :
    (INT_MAX < 1000 * 10 ^ i.toNat →
      run_direct_simulation exp sqrt oor start finish i g
        = (print_simulation_results oor
            (accumulate (simulate_new_bma_price_direct exp sqrt) oor g).1
            (standard_error sqrt oor
              (accumulate (simulate_new_bma_price_direct exp sqrt) oor g).1
              (accumulate (simulate_new_bma_price_direct exp sqrt) oor g).2.1)
            (confidence_interval_lower sqrt oor
              (accumulate (simulate_new_bma_price_direct exp sqrt) oor g).1)
            (confidence_interval_upper sqrt oor
              (accumulate (simulate_new_bma_price_direct exp sqrt) oor g).1)
            (finish - start),
           (accumulate (simulate_new_bma_price_direct exp sqrt) oor g).2.2)
      ∧ oor ≠ 1000 * 10 ^ i.toNat)
    ∧ (INT_MAX < 4000 * 10 ^ i.toNat →
      run_antithetic_simulation exp sqrt oor start finish i g
        = (print_simulation_results oor
            (accumulate (simulate_new_bma_price_antithetic exp sqrt) oor g).1
            (standard_error sqrt oor
              (accumulate (simulate_new_bma_price_antithetic exp sqrt) oor g).1
              (accumulate (simulate_new_bma_price_antithetic exp sqrt) oor g).2.1)
            (confidence_interval_lower sqrt oor
              (accumulate (simulate_new_bma_price_antithetic exp sqrt) oor g).1)
            (confidence_interval_upper sqrt oor
              (accumulate (simulate_new_bma_price_antithetic exp sqrt) oor g).1)
            (finish - start),
           (accumulate (simulate_new_bma_price_antithetic exp sqrt) oor g).2.2)
      ∧ oor ≠ 4000 * 10 ^ i.toNat) := by
  obtain ⟨j, rfl⟩ : ∃ j : Nat, i = (j : Int) := ⟨i.toNat, by omega⟩
  simp only [Int.toNat_ofNat]
  constructor
  · intro h
    have hN : replicate_count_of (α := α) oor BASE_NUMBER_OF_REPLICATES_PER_DIRECT_SIMULATION
        (j : Int) = oor := by
      apply replicate_count_of_overflow
      unfold BASE_NUMBER_OF_REPLICATES_PER_DIRECT_SIMULATION
      push_cast
      exact h
    exact ⟨run_direct_simulation_eq exp sqrt oor start finish j g oor _ _ _ hN rfl,
      fun hc => by omega⟩
  · intro h
    have hN : replicate_count_of (α := α) oor
        BASE_NUMBER_OF_REPLICATES_PER_ANTITHETIC_SIMULATION (j : Int) = oor := by
      apply replicate_count_of_overflow
      unfold BASE_NUMBER_OF_REPLICATES_PER_ANTITHETIC_SIMULATION
      push_cast
      exact h
    exact ⟨run_antithetic_simulation_eq exp sqrt oor start finish j g oor _ _ _ hN rfl,
      fun hc => by omega⟩

/-- Witness of C9 (amended): run index 7 of the direct strategy, out-of-range conversion
result `INT_MIN`. -/
theorem replicate_count_out_of_range_witness :
    INT_MIN < INT_MAX ∧ (0 : Int) ≤ 7 ∧ INT_MAX < 1000 * 10 ^ (7 : Int).toNat
    ∧ (run_direct_simulation Real.exp Real.sqrt INT_MIN 0 1 7
        (⟨fun _ => 0, 0⟩ : RandomEngine ℝ)).1.replicate_count = INT_MIN :=
  have h : INT_MAX < 1000 * 10 ^ (7 : Int).toNat := by
    have e : (7 : Int).toNat = 7 := rfl
    rw [e]
    norm_num [INT_MAX]
  ⟨by decide, by decide, h,
   congrArg (fun r => r.1.replicate_count)
    ((replicate_count_out_of_range Real.exp Real.sqrt INT_MIN (by decide) 0 1 7 (by decide)
      ⟨fun _ => 0, 0⟩).1 h).1⟩

/-- C11: for every draw `z` (the next draw of the engine) and terminal price
`S(u) = S0 * exp((r - q - 0.5*sigma^2)*T + sigma*sqrt(T)*u)`,
`simulate_new_bma_price_direct` returns exactly 0 when `S(z) - K ≤ 0`,
`simulate_new_bma_price_antithetic` returns exactly 0 when `S(z) - K ≤ 0` and
`S(-z) - K ≤ 0`, and both return a value `≥ 0` for every draw (exact real arithmetic). -/
theorem payoff_zero_at_or_below_strike (g : RandomEngine ℝ) :
    (spec_terminal_price Real.exp Real.sqrt (g.draws g.position) - STRIKE_PRICE ℝ ≤ 0 →
      (simulate_new_bma_price_direct Real.exp Real.sqrt g).1 = 0)
    ∧ (spec_terminal_price Real.exp Real.sqrt (g.draws g.position) - STRIKE_PRICE ℝ ≤ 0 →
        spec_terminal_price Real.exp Real.sqrt (-(g.draws g.position)) - STRIKE_PRICE ℝ ≤ 0 →
        (simulate_new_bma_price_antithetic Real.exp Real.sqrt g).1 = 0)
    ∧ 0 ≤ (simulate_new_bma_price_direct Real.exp Real.sqrt g).1
    ∧ 0 ≤ (simulate_new_bma_price_antithetic Real.exp Real.sqrt g).1 := by
  refine ⟨?_, ?_, ?_, ?_⟩
  · intro h
    rw [direct_sample_eq_spec]
    exact spec_direct_sample_eq_zero _ h
  · intro h1 h2
    rw [simulate_new_bma_price_antithetic_pair]
    simp only []
    rw [spec_direct_sample_eq_zero _ h1, spec_direct_sample_eq_zero _ h2]
    norm_num
  · rw [direct_sample_eq_spec]
    exact spec_direct_sample_nonneg _
  · rw [simulate_new_bma_price_antithetic_pair]
    simp only []
    have h1 := spec_direct_sample_nonneg (g.draws g.position)
    have h2 := spec_direct_sample_nonneg (-(g.draws g.position))
    linarith

/-- Witness of C11: the draw `0`, for which `S(0) = S(-0)` is below the strike. -/
theorem payoff_zero_at_or_below_strike_witness :
    spec_terminal_price Real.exp Real.sqrt
        ((⟨fun _ => 0, 0⟩ : RandomEngine ℝ).draws 0) - STRIKE_PRICE ℝ ≤ 0
    ∧ spec_terminal_price Real.exp Real.sqrt
        (-((⟨fun _ => 0, 0⟩ : RandomEngine ℝ).draws 0)) - STRIKE_PRICE ℝ ≤ 0
    ∧ (simulate_new_bma_price_direct Real.exp Real.sqrt
        (⟨fun _ => 0, 0⟩ : RandomEngine ℝ)).1 = 0
    ∧ (simulate_new_bma_price_antithetic Real.exp Real.sqrt
        (⟨fun _ => 0, 0⟩ : RandomEngine ℝ)).1 = 0 :=
  have h1 : spec_terminal_price Real.exp Real.sqrt
      ((⟨fun _ => 0, 0⟩ : RandomEngine ℝ).draws 0) - STRIKE_PRICE ℝ ≤ 0 :=
    spec_price_le_strike_of_nonpos _ le_rfl
  have h2 : spec_terminal_price Real.exp Real.sqrt
      (-((⟨fun _ => 0, 0⟩ : RandomEngine ℝ).draws 0)) - STRIKE_PRICE ℝ ≤ 0 :=
    spec_price_le_strike_of_nonpos _ (by norm_num)
  ⟨h1, h2, (payoff_zero_at_or_below_strike ⟨fun _ => 0, 0⟩).1 h1,
   (payoff_zero_at_or_below_strike ⟨fun _ => 0, 0⟩).2.1 h1 h2⟩

/-- C17: per-draw second-moment reduction. For every draw `z` (the next draw of the
engine), the square of the sample `simulate_new_bma_price_antithetic` returns is at most
`0.5 * (direct(z)^2 + direct(-z)^2)`, where `direct(z)` and `direct(-z)` are the samples
`simulate_new_bma_price_direct` returns for the draw and for its negation (exact real
arithmetic). -/
theorem antithetic_square_le_mean_direct_squares (g : RandomEngine ℝ) :
    (simulate_new_bma_price_antithetic Real.exp Real.sqrt g).1 ^ 2
      ≤ 0.5 * ((simulate_new_bma_price_direct Real.exp Real.sqrt g).1 ^ 2
          + (simulate_new_bma_price_direct Real.exp Real.sqrt (negated_engine g)).1 ^ 2) := by
  rw [simulate_new_bma_price_antithetic_pair, simulate_new_bma_price_direct_pair,
    simulate_new_bma_price_direct_pair]
  simp only [negated_engine]
  nlinarith [sq_nonneg (spec_direct_sample Real.exp Real.sqrt (g.draws g.position)
    - spec_direct_sample Real.exp Real.sqrt (-(g.draws g.position)))]

/-- C18: antithetic symmetry. For every draw `z` (the next draw of the engine),
`simulate_new_bma_price_antithetic` returns the same sample for `z` and for `-z` (exact
real arithmetic). -/
theorem antithetic_sample_symmetric (g : RandomEngine ℝ) :
    (simulate_new_bma_price_antithetic Real.exp Real.sqrt (negated_engine g)).1
      = (simulate_new_bma_price_antithetic Real.exp Real.sqrt g).1 := by
  rw [simulate_new_bma_price_antithetic_pair, simulate_new_bma_price_antithetic_pair]
  simp only [negated_engine, neg_neg]
  ring

/-- C14: every call of `simulate_new_bma_price_antithetic` and of
`simulate_new_bma_price_direct` takes exactly one draw and yields one sample; for every
replicate count `N ≥ 1` the accumulation of a run consumes exactly `N` draws and ingests
exactly `N` samples, the `j`-th of which is the sample of the `j`-th draw: its mean is the
sum of these `N` samples divided by `N`. -/
theorem run_consumes_one_draw_per_sample (exp sqrt : α → α) (N : Int) (hN : 1 ≤ N)
    (g : RandomEngine α) :
    (simulate_new_bma_price_antithetic exp sqrt g).2 = ⟨g.draws, g.position + 1⟩
    ∧ (simulate_new_bma_price_direct exp sqrt g).2 = ⟨g.draws, g.position + 1⟩
    ∧ (accumulate (simulate_new_bma_price_antithetic exp sqrt) N g).2.2
        = ⟨g.draws, g.position + N.toNat⟩
    ∧ (accumulate (simulate_new_bma_price_direct exp sqrt) N g).2.2
        = ⟨g.draws, g.position + N.toNat⟩
    ∧ (sample_sequence (simulate_new_bma_price_antithetic exp sqrt) N.toNat g).length
        = N.toNat
    ∧ (sample_sequence (simulate_new_bma_price_direct exp sqrt) N.toNat g).length = N.toNat
    ∧ (∀ (j : Nat)
        (hj : j < (sample_sequence (simulate_new_bma_price_antithetic exp sqrt) N.toNat
          g).length),
        (sample_sequence (simulate_new_bma_price_antithetic exp sqrt) N.toNat g).get ⟨j, hj⟩
          = (simulate_new_bma_price_antithetic exp sqrt ⟨g.draws, g.position + j⟩).1)
    ∧ (∀ (j : Nat)
        (hj : j < (sample_sequence (simulate_new_bma_price_direct exp sqrt) N.toNat
          g).length),
        (sample_sequence (simulate_new_bma_price_direct exp sqrt) N.toNat g).get ⟨j, hj⟩
          = (simulate_new_bma_price_direct exp sqrt ⟨g.draws, g.position + j⟩).1)
    ∧ (accumulate (simulate_new_bma_price_antithetic exp sqrt) N g).1
        = Dbl.fin ((sample_sequence (simulate_new_bma_price_antithetic exp sqrt) N.toNat
            g).sum / (N.toNat : α))
    ∧ (accumulate (simulate_new_bma_price_direct exp sqrt) N g).1
        = Dbl.fin ((sample_sequence (simulate_new_bma_price_direct exp sqrt) N.toNat
            g).sum / (N.toNat : α)) := by
  have ha : ∀ g : RandomEngine α,
      (simulate_new_bma_price_antithetic exp sqrt g).2 = ⟨g.draws, g.position + 1⟩ :=
    fun _ => rfl
  have hd : ∀ g : RandomEngine α,
      (simulate_new_bma_price_direct exp sqrt g).2 = ⟨g.draws, g.position + 1⟩ :=
    fun _ => rfl
  refine ⟨ha g, hd g, ?_, ?_, sample_sequence_length _ _ _, sample_sequence_length _ _ _,
    sample_sequence_of_one_draw _ ha _ g, sample_sequence_of_one_draw _ hd _ g, ?_, ?_⟩
  · rw [accumulate_of_pos _ N hN g]
    exact engine_after_of_one_draw _ ha _ g
  · rw [accumulate_of_pos _ N hN g]
    exact engine_after_of_one_draw _ hd _ g
  · rw [accumulate_of_pos _ N hN g]
  · rw [accumulate_of_pos _ N hN g]

/-- Witness of C14: three replicates from an engine at its first draw. -/
theorem run_consumes_one_draw_per_sample_witness :
    (1 : Int) ≤ 3
    ∧ (accumulate (simulate_new_bma_price_antithetic Real.exp Real.sqrt) 3
        (⟨fun n => (n : ℝ), 0⟩ : RandomEngine ℝ)).2.2
        = ⟨fun n => (n : ℝ), 0 + (3 : Int).toNat⟩
    ∧ (accumulate (simulate_new_bma_price_direct Real.exp Real.sqrt) 3
        (⟨fun n => (n : ℝ), 0⟩ : RandomEngine ℝ)).2.2
        = ⟨fun n => (n : ℝ), 0 + (3 : Int).toNat⟩ :=
  ⟨by decide,
   (run_consumes_one_draw_per_sample Real.exp Real.sqrt 3 (by decide)
      ⟨fun n => (n : ℝ), 0⟩).2.2.1,
   (run_consumes_one_draw_per_sample Real.exp Real.sqrt 3 (by decide)
      ⟨fun n => (n : ℝ), 0⟩).2.2.2.1⟩

/-- C15, counterexample: a direct run whose first draw is `1`. After the first sample the
running mean is `x_1 > 1` and the running second moment is `x_1 * x_1`, which is not
`x_1`. -/
theorem first_second_moment_is_not_first_sample :
    ∃ x_1 : ℝ,
      (accumulate (simulate_new_bma_price_direct Real.exp Real.sqrt) 1
        (⟨fun _ => 1, 0⟩ : RandomEngine ℝ)).1 = Dbl.fin x_1
      ∧ (accumulate (simulate_new_bma_price_direct Real.exp Real.sqrt) 1
        (⟨fun _ => 1, 0⟩ : RandomEngine ℝ)).2.1 = Dbl.fin (x_1 * x_1)
      ∧ (accumulate (simulate_new_bma_price_direct Real.exp Real.sqrt) 1
        (⟨fun _ => 1, 0⟩ : RandomEngine ℝ)).2.1 ≠ Dbl.fin x_1 := by
  have h := direct_sample_gt_one (⟨fun _ => 1, 0⟩ : RandomEngine ℝ) le_rfl
  refine ⟨(simulate_new_bma_price_direct Real.exp Real.sqrt
    (⟨fun _ => 1, 0⟩ : RandomEngine ℝ)).1, rfl, rfl, ?_⟩
  intro hc
  have e : (accumulate (simulate_new_bma_price_direct Real.exp Real.sqrt) 1
      (⟨fun _ => 1, 0⟩ : RandomEngine ℝ)).2.1
      = Dbl.fin ((simulate_new_bma_price_direct Real.exp Real.sqrt
          (⟨fun _ => 1, 0⟩ : RandomEngine ℝ)).1
        * (simulate_new_bma_price_direct Real.exp Real.sqrt
          (⟨fun _ => 1, 0⟩ : RandomEngine ℝ)).1) := rfl
  rw [e] at hc
  injection hc with hc
  nlinarith

/-- C15, amended: after the first sample `x_1` has been ingested, before the loop from
`k = 2` starts, the running mean is `x_1` and the running second moment is `x_1 * x_1`,
for every sampling function and engine; this is the final state of a run of one
replicate. -/
theorem first_sample_state (sample : RandomEngine α → α × RandomEngine α) (N : Int)
    (g : RandomEngine α) :
    accumulate sample N g
      = accumulation_loop sample (N - 1).toNat 2
          (Dbl.fin (sample g).1, Dbl.fin ((sample g).1 * (sample g).1), (sample g).2)
    ∧ accumulate sample 1 g
      = (Dbl.fin (sample g).1, Dbl.fin ((sample g).1 * (sample g).1), (sample g).2) :=
  ⟨rfl, rfl⟩

/-- C16, amended: in exact real arithmetic, that is for the updates of lines 121 and 141
without the rounding of a double operation, for every run of either strategy whose
replicate count `N` is at least 1, whatever the draws, the estimated price `x_bar` of the
row is finite, non-negative, and lies between every lower bound and every upper bound of
the `N` payoff samples of the run, hence between the smallest and the largest of them. -/
theorem estimated_price_between_samples (oor : Int) (start finish : ℝ) (i : Int)
    (g : RandomEngine ℝ) :
    (1 ≤ replicate_count_of (α := ℝ) oor BASE_NUMBER_OF_REPLICATES_PER_DIRECT_SIMULATION i →
      ∃ x : ℝ,
        (run_direct_simulation Real.exp Real.sqrt oor start finish i g).1.estimated_price
          = Dbl.fin x
        ∧ 0 ≤ x
        ∧ ∀ lo hi : ℝ,
            (∀ v ∈ sample_sequence (simulate_new_bma_price_direct Real.exp Real.sqrt)
              (replicate_count_of (α := ℝ) oor
                BASE_NUMBER_OF_REPLICATES_PER_DIRECT_SIMULATION i).toNat g,
              lo ≤ v ∧ v ≤ hi) → lo ≤ x ∧ x ≤ hi)
    ∧ (1 ≤ replicate_count_of (α := ℝ) oor
          BASE_NUMBER_OF_REPLICATES_PER_ANTITHETIC_SIMULATION i →
      ∃ x : ℝ,
        (run_antithetic_simulation Real.exp Real.sqrt oor start finish i g).1.estimated_price
          = Dbl.fin x
        ∧ 0 ≤ x
        ∧ ∀ lo hi : ℝ,
            (∀ v ∈ sample_sequence (simulate_new_bma_price_antithetic Real.exp Real.sqrt)
              (replicate_count_of (α := ℝ) oor
                BASE_NUMBER_OF_REPLICATES_PER_ANTITHETIC_SIMULATION i).toNat g,
              lo ≤ v ∧ v ≤ hi) → lo ≤ x ∧ x ≤ hi) := by
  constructor
  · intro hN
    obtain ⟨x, hx, hlo, hhi⟩ := accumulate_mean_between
      (simulate_new_bma_price_direct Real.exp Real.sqrt) _ hN g
    rcases hacc : accumulate (simulate_new_bma_price_direct Real.exp Real.sqrt)
      (replicate_count_of (α := ℝ) oor BASE_NUMBER_OF_REPLICATES_PER_DIRECT_SIMULATION i) g
      with ⟨xb, yb, g1⟩
    rw [hacc] at hx
    rw [run_direct_simulation_eq Real.exp Real.sqrt oor start finish i g _ _ _ _ rfl hacc]
    exact ⟨x, hx, hlo 0 (direct_samples_nonneg _ g),
      fun lo hi h => ⟨hlo lo (fun v hv => (h v hv).1), hhi hi (fun v hv => (h v hv).2)⟩⟩
  · intro hN
    obtain ⟨x, hx, hlo, hhi⟩ := accumulate_mean_between
      (simulate_new_bma_price_antithetic Real.exp Real.sqrt) _ hN g
    rcases hacc : accumulate (simulate_new_bma_price_antithetic Real.exp Real.sqrt)
      (replicate_count_of (α := ℝ) oor BASE_NUMBER_OF_REPLICATES_PER_ANTITHETIC_SIMULATION i)
      g with ⟨xb, yb, g1⟩
    rw [hacc] at hx
    rw [run_antithetic_simulation_eq Real.exp Real.sqrt oor start finish i g _ _ _ _ rfl hacc]
    exact ⟨x, hx, hlo 0 (antithetic_samples_nonneg _ g),
      fun lo hi h => ⟨hlo lo (fun v hv => (h v hv).1), hhi hi (fun v hv => (h v hv).2)⟩⟩

/-- Witness of C16 (amended): the first run of the direct sweep, 1000 replicates, all
draws equal to `1`. -/
theorem estimated_price_between_samples_witness :
    1 ≤ replicate_count_of (α := ℝ) INT_MIN BASE_NUMBER_OF_REPLICATES_PER_DIRECT_SIMULATION 0
    ∧ ∃ x : ℝ,
        (run_direct_simulation Real.exp Real.sqrt INT_MIN 0 1 0
          (⟨fun _ => 1, 0⟩ : RandomEngine ℝ)).1.estimated_price = Dbl.fin x
        ∧ 0 ≤ x
        ∧ ∀ lo hi : ℝ,
            (∀ v ∈ sample_sequence (simulate_new_bma_price_direct Real.exp Real.sqrt)
              (replicate_count_of (α := ℝ) INT_MIN
                BASE_NUMBER_OF_REPLICATES_PER_DIRECT_SIMULATION 0).toNat
              (⟨fun _ => 1, 0⟩ : RandomEngine ℝ),
              lo ≤ v ∧ v ≤ hi) → lo ≤ x ∧ x ≤ hi :=
  have h : 1 ≤ replicate_count_of (α := ℝ) INT_MIN
      BASE_NUMBER_OF_REPLICATES_PER_DIRECT_SIMULATION 0 := by
    rw [direct_replicate_count_in_sweep INT_MIN 0 le_rfl (by norm_num)]
    norm_num
  ⟨h, (estimated_price_between_samples INT_MIN 0 1 0 ⟨fun _ => 1, 0⟩).1 h⟩

/-- C13, counterexample: two runs of the program on the same draws (all `0`), the clock
reading 1 second per simulation run in the first and 2 seconds in the second. The
`runtime_in_seconds` column of the direct table is `1` in every row of the first output
and `2` in every row of the second, so the two outputs differ. -/
theorem report_differs_with_clock :
    (direct_sweep Real.exp Real.sqrt INT_MIN (fun _ => ((0 : ℝ), (1 : ℝ)))
        NUMBER_OF_DIRECT_SIMULATION_RUNS 0 (⟨fun _ => 0, 0⟩ : RandomEngine ℝ)).1.map
        ReportRow.runtime_in_seconds = [1, 1, 1, 1, 1, 1]
    ∧ (direct_sweep Real.exp Real.sqrt INT_MIN (fun _ => ((0 : ℝ), (2 : ℝ)))
        NUMBER_OF_DIRECT_SIMULATION_RUNS 0 (⟨fun _ => 0, 0⟩ : RandomEngine ℝ)).1.map
        ReportRow.runtime_in_seconds = [2, 2, 2, 2, 2, 2]
    ∧ ∀ (erfc : ℝ → ℝ) (M_SQRT1_2 : ℝ),
        main Real.log Real.exp Real.sqrt erfc M_SQRT1_2 INT_MIN
            (fun _ => (0, 1)) (fun _ => (0, 1)) (⟨fun _ => 0, 0⟩ : RandomEngine ℝ)
          ≠ main Real.log Real.exp Real.sqrt erfc M_SQRT1_2 INT_MIN
            (fun _ => (0, 2)) (fun _ => (0, 2)) (⟨fun _ => 0, 0⟩ : RandomEngine ℝ) := by
  have h1 : (direct_sweep Real.exp Real.sqrt INT_MIN (fun _ => ((0 : ℝ), (1 : ℝ)))
      NUMBER_OF_DIRECT_SIMULATION_RUNS 0 (⟨fun _ => 0, 0⟩ : RandomEngine ℝ)).1.map
      ReportRow.runtime_in_seconds = [1, 1, 1, 1, 1, 1] := by
    rw [(direct_sweep_clock Real.exp Real.sqrt INT_MIN (fun _ => ((0 : ℝ), (1 : ℝ)))
      (fun _ => ((0 : ℝ), (1 : ℝ))) _ 0 _).2.2.1]
    simp [NUMBER_OF_DIRECT_SIMULATION_RUNS, sweep_indices]
  have h2 : (direct_sweep Real.exp Real.sqrt INT_MIN (fun _ => ((0 : ℝ), (2 : ℝ)))
      NUMBER_OF_DIRECT_SIMULATION_RUNS 0 (⟨fun _ => 0, 0⟩ : RandomEngine ℝ)).1.map
      ReportRow.runtime_in_seconds = [2, 2, 2, 2, 2, 2] := by
    rw [(direct_sweep_clock Real.exp Real.sqrt INT_MIN (fun _ => ((0 : ℝ), (2 : ℝ)))
      (fun _ => ((0 : ℝ), (2 : ℝ))) _ 0 _).2.2.1]
    simp [NUMBER_OF_DIRECT_SIMULATION_RUNS, sweep_indices]
  refine ⟨h1, h2, ?_⟩
  intro erfc M hc
  have h3 := congrArg (fun o => o.direct_rows.map ReportRow.runtime_in_seconds) hc
  simp only [main_eq] at h3
  rw [h1, h2] at h3
  norm_num at h3

/-- C13, amended: determinism up to the clock. Two runs of the program on the same draws
print the same closed-form price and, in every row of both tables, the same
`sample_size`, `estimated_price`, `estimated_standard_error` and confidence bounds,
whatever the clock readings; the `runtime_in_seconds` and `efficiency` columns, and with
them the whole output, are identical when the elapsed times of corresponding runs are
equal. -/
theorem report_deterministic_up_to_clock [FloorRing α] (log exp sqrt erfc : α → α)
    (M_SQRT1_2 : α) (oor : Int) (cd1 ca1 cd2 ca2 : Int → α × α)
    (g : RandomEngine α) :
    (main log exp sqrt erfc M_SQRT1_2 oor cd1 ca1 g).bsm_call_price
        = (main log exp sqrt erfc M_SQRT1_2 oor cd2 ca2 g).bsm_call_price
    ∧ (main log exp sqrt erfc M_SQRT1_2 oor cd1 ca1 g).direct_rows.map
          ReportRow.statistics
        = (main log exp sqrt erfc M_SQRT1_2 oor cd2 ca2 g).direct_rows.map
          ReportRow.statistics
    ∧ (main log exp sqrt erfc M_SQRT1_2 oor cd1 ca1 g).antithetic_rows.map
          ReportRow.statistics
        = (main log exp sqrt erfc M_SQRT1_2 oor cd2 ca2 g).antithetic_rows.map
          ReportRow.statistics
    ∧ ((∀ j, (cd1 j).2 - (cd1 j).1 = (cd2 j).2 - (cd2 j).1) →
        (∀ j, (ca1 j).2 - (ca1 j).1 = (ca2 j).2 - (ca2 j).1) →
        main log exp sqrt erfc M_SQRT1_2 oor cd1 ca1 g
          = main log exp sqrt erfc M_SQRT1_2 oor cd2 ca2 g) := by
  obtain ⟨d1, d2, _, d4⟩ := direct_sweep_clock exp sqrt oor cd1 cd2
    NUMBER_OF_DIRECT_SIMULATION_RUNS 0 g
  obtain ⟨_, a2, _, a4⟩ := antithetic_sweep_clock exp sqrt oor ca1 ca2
    NUMBER_OF_ANTITHETIC_SIMULATION_RUNS 0
    (direct_sweep exp sqrt oor cd1 NUMBER_OF_DIRECT_SIMULATION_RUNS 0 g).2
  simp only [main_eq]
  refine ⟨trivial, d2, ?_, ?_⟩
  · rw [← d1]
    exact a2
  · intro hd ha
    rw [← d4 hd, a4 ha]

/-- Witness of C13 (amended): two clocks that differ by an offset of one second. -/
theorem report_deterministic_up_to_clock_witness :
    (∀ j : Int, ((fun _ => ((0 : ℝ), (1 : ℝ))) j).2 - ((fun _ => ((0 : ℝ), (1 : ℝ))) j).1
        = ((fun _ => ((1 : ℝ), (2 : ℝ))) j).2 - ((fun _ => ((1 : ℝ), (2 : ℝ))) j).1)
    ∧ main Real.log Real.exp Real.sqrt (fun x => x) 1 INT_MIN
          (fun _ => (0, 1)) (fun _ => (0, 1)) (⟨fun _ => 0, 0⟩ : RandomEngine ℝ)
        = main Real.log Real.exp Real.sqrt (fun x => x) 1 INT_MIN
          (fun _ => (1, 2)) (fun _ => (1, 2)) (⟨fun _ => 0, 0⟩ : RandomEngine ℝ) :=
  have h : ∀ j : Int,
      ((fun _ => ((0 : ℝ), (1 : ℝ))) j).2 - ((fun _ => ((0 : ℝ), (1 : ℝ))) j).1
        = ((fun _ => ((1 : ℝ), (2 : ℝ))) j).2 - ((fun _ => ((1 : ℝ), (2 : ℝ))) j).1 := by
    intro j
    norm_num
  ⟨h, (report_deterministic_up_to_clock Real.log Real.exp Real.sqrt (fun x => x) 1
    INT_MIN (fun _ => (0, 1)) (fun _ => (0, 1)) (fun _ => (1, 2))
    (fun _ => (1, 2)) ⟨fun _ => 0, 0⟩).2.2.2 h h⟩

/-- C6, counterexample: two direct runs of index 0 in IEEE 754 double precision, both of
1000 replicates. With all draws `1` the printed bounds are `75.40850276137249...` and
`75.44543082795909...`; with all draws `0` they are `∓0.01846403329329754...`. The two
widths differ, as exact differences and as differences computed in double precision:
the printed width depends on the sampled data. -/
theorem confidence_interval_width_depends_on_samples :
    (FP.run_direct_simulation binary64 INT_MIN 0 1 0 ⟨fun _ => 1, 0⟩).row.replicate_count
      = 1000
    ∧ (FP.run_direct_simulation binary64 INT_MIN 0 1 0 ⟨fun _ => 0, 0⟩).row.replicate_count
      = 1000
    ∧ (FP.run_direct_simulation binary64 INT_MIN 0 1 0
        ⟨fun _ => 1, 0⟩).row.confidence_interval_lower
      = Dbl.fin (2653200819817845 / 35184372088832)
    ∧ (FP.run_direct_simulation binary64 INT_MIN 0 1 0
        ⟨fun _ => 1, 0⟩).row.confidence_interval_upper
      = Dbl.fin (2654500110653149 / 35184372088832)
    ∧ (FP.run_direct_simulation binary64 INT_MIN 0 1 0
        ⟨fun _ => 0, 0⟩).row.confidence_interval_lower
      = Dbl.fin (-5321895261404879 / 288230376151711744)
    ∧ (FP.run_direct_simulation binary64 INT_MIN 0 1 0
        ⟨fun _ => 0, 0⟩).row.confidence_interval_upper
      = Dbl.fin (5321895261404879 / 288230376151711744)
    ∧ (FP.run_direct_simulation binary64 INT_MIN 0 1 0
          ⟨fun _ => 1, 0⟩).row.confidence_interval_upper
        - (FP.run_direct_simulation binary64 INT_MIN 0 1 0
          ⟨fun _ => 1, 0⟩).row.confidence_interval_lower
      ≠ (FP.run_direct_simulation binary64 INT_MIN 0 1 0
          ⟨fun _ => 0, 0⟩).row.confidence_interval_upper
        - (FP.run_direct_simulation binary64 INT_MIN 0 1 0
          ⟨fun _ => 0, 0⟩).row.confidence_interval_lower
    ∧ binary64.sub
        (FP.run_direct_simulation binary64 INT_MIN 0 1 0
          ⟨fun _ => 1, 0⟩).row.confidence_interval_upper
        (FP.run_direct_simulation binary64 INT_MIN 0 1 0
          ⟨fun _ => 1, 0⟩).row.confidence_interval_lower
      ≠ binary64.sub
        (FP.run_direct_simulation binary64 INT_MIN 0 1 0
          ⟨fun _ => 0, 0⟩).row.confidence_interval_upper
        (FP.run_direct_simulation binary64 INT_MIN 0 1 0
          ⟨fun _ => 0, 0⟩).row.confidence_interval_lower := by
  rw [FP.run_equal_samples_row, FP.run_zero_samples_row]
  simp only [FP.print_simulation_results, FP.confidence_interval_equal_samples.1,
    FP.confidence_interval_equal_samples.2, FP.confidence_interval_zero_samples.1,
    FP.confidence_interval_zero_samples.2]
  refine ⟨trivial, trivial, trivial, trivial, trivial, trivial, ?_, ?_⟩
  · decide!
  · decide!

/-- C16, counterexample: the direct run of index 0 in IEEE 754 double precision whose
draws are all `1`. It takes 1000 samples, every one equal to
`331731308154437 / 2^42 = 75.42696679466576...`, and reports the estimated price
`2653850465235497 / 2^45 = 75.42696679466579...`, which is above every sample of the
run: the rounded updates of lines 121 and 141 are not convex combinations. -/
theorem estimated_price_above_every_sample :
    (FP.run_direct_simulation binary64 INT_MIN 0 1 0 ⟨fun _ => 1, 0⟩).row.replicate_count
      = 1000
    ∧ (∀ v ∈ sample_sequence (FP.simulate_new_bma_price_direct binary64) 1000
        ⟨fun _ => 1, 0⟩, v = 331731308154437 / 4398046511104)
    ∧ (FP.run_direct_simulation binary64 INT_MIN 0 1 0 ⟨fun _ => 1, 0⟩).row.estimated_price
      = Dbl.fin (2653850465235497 / 35184372088832)
    ∧ ∀ v ∈ sample_sequence (FP.simulate_new_bma_price_direct binary64) 1000
        ⟨fun _ => 1, 0⟩, v < 2653850465235497 / 35184372088832 := by
  have hs := sample_sequence_const (FP.simulate_new_bma_price_direct binary64)
    (331731308154437 / 4398046511104) (fun _ => 1) FP.direct_sample_at_one 1000 0
  rw [FP.run_equal_samples_row]
  refine ⟨rfl, hs, rfl, ?_⟩
  intro v hv
  rw [hs v hv]
  norm_num

end Properties

end BMA
